import Mathlib

/-!
Verification development for the Personal-OS learning tracker.

This file shallowly embeds the core of the repository — the spaced-repetition
scheduler, the skill/item/challenge store of `src/brain/learning_tracker.py`,
the roadmap parser of `src/main.py`, and the streak aggregator — as executable
Lean definitions, and proves (or refutes) the specification claims about them.

Modelling conventions:
* timestamps are integers counting seconds; `timedelta(days=d)` is `d * 86400`
  seconds and `timedelta(hours=h)` is `h * 3600` seconds; calendar dates
  (the `daily_streaks.date` column) are integers counting days;
* the sqlite database is a record of lists of typed rows; `AUTOINCREMENT`
  ids are `max id + 1`; `PRAGMA foreign_keys = ON` and the schema `CHECK`
  constraints of `_init_tables` are modelled as explicit guards that return a
  `DbError` (a raised `sqlite3.IntegrityError` / `ValueError` in Python);
* operations that Python runs for effect return the new database; a raised
  exception is `Except.error` (the surrounding transaction is not committed);
* text is `String` / `List Char`; the regular expressions of the roadmap
  parser are translated scanner-by-scanner, with the greedy/lazy backtracking
  of each concrete pattern reproduced explicitly.
-/

namespace PersonalOS

/-! ### Time model -/

def secondsPerDay : Int := 86400

def secondsPerHour : Int := 3600

/-! ### Review scheduler (`src/brain/learning_tracker.py`, lines 391-418) -/

/-- `_calculate_next_review(understanding_level)`: spaced-repetition interval
table `intervals = 1 ↦ 1, 2 ↦ 3, 3 ↦ 7, 4 ↦ 14, 5 ↦ 30` days,
`intervals.get(understanding_level, 7)`, added to `datetime.now()`. -/
def calculate_next_review (now : Int) (understanding_level : Int) : Int :=
  let days : Int :=
    if understanding_level = 1 then 1
    else if understanding_level = 2 then 3
    else if understanding_level = 3 then 7
    else if understanding_level = 4 then 14
    else if understanding_level = 5 then 30
    else 7
  now + days * secondsPerDay

/-- `_calculate_next_review_for_item(was_correct, confidence)`: incorrect
answers are rescheduled `4` hours from now regardless of confidence; correct
answers use the same day table keyed by confidence with default `7`. -/
def calculate_next_review_for_item (now : Int) (was_correct : Bool) (confidence : Int) : Int :=
  if !was_correct then now + 4 * secondsPerHour
  else
    let days : Int :=
      if confidence = 1 then 1
      else if confidence = 2 then 3
      else if confidence = 3 then 7
      else if confidence = 4 then 14
      else if confidence = 5 then 30
      else 7
    now + days * secondsPerDay

/-! ### Data model (`_init_tables`, `src/brain/learning_tracker.py` lines 25-194) -/

/-- Row of `learning_skills`. -/
structure SkillRow where
  id : Nat
  skill_name : String
  category : Option String
  difficulty : String
  target_level : Option String
  status : String
  last_reviewed : Option Int
  next_review : Option Int
  total_time_minutes : Int
  notes : Option String
deriving DecidableEq, Repr

/-- Row of `learning_sessions`. -/
structure SessionRow where
  id : Nat
  skill_id : Nat
  session_date : Int
  duration_minutes : Int
  topics_covered : String
  understanding_level : Int
  notes : Option String
  key_takeaways : Option String
deriving DecidableEq, Repr

/-- Row of `learning_items`. -/
structure ItemRow where
  id : Nat
  skill_id : Nat
  item_type : String
  question : Option String
  answer : String
  difficulty : Int
  times_reviewed : Int
  times_correct : Int
  last_reviewed : Option Int
  next_review : Option Int
  confidence_level : Int
  tags : Option String
  source : Option String
deriving DecidableEq, Repr

/-- Row of `review_history`. -/
structure ReviewRow where
  id : Nat
  item_id : Nat
  review_date : Int
  was_correct : Bool
  confidence_before : Int
  confidence_after : Int
  time_taken_seconds : Option Int
deriving DecidableEq, Repr

/-- Row of `learning_challenges`; `skills_taught`, `prerequisites` and
`unlocks` hold JSON-encoded text exactly as the sqlite column does. -/
structure ChallengeRow where
  id : Nat
  title : String
  description : String
  skill_id : Nat
  difficulty : String
  estimated_hours : Int
  skills_taught : String
  prerequisites : String
  unlocks : String
  status : String
  progress_percent : Int
  time_spent : Int
  github_link : Option String
  notes : Option String
  started_at : Option Int
  completed_at : Option Int
  created_at : Int
deriving DecidableEq, Repr

/-- Row of `challenge_obstacles`. -/
structure ObstacleRow where
  id : Nat
  challenge_id : Nat
  obstacle_description : String
  solution : Option String
  insight : Option String
  time_to_solve : Option Int
  resources_used : Option String
  status : String
  created_at : Int
  solved_at : Option Int
deriving DecidableEq, Repr

/-- Row of `skill_evidence`. -/
structure EvidenceRow where
  skill_id : Nat
  challenge_id : Nat
  evidence_type : String
  description : String
deriving DecidableEq, Repr

/-- Row of `daily_streaks` (`date` is a calendar day number; the schema's
`maintained_streak BOOLEAN DEFAULT 1`). -/
structure StreakRow where
  date : Int
  minutes_worked : Int
  challenge_worked_on : Option Nat
  obstacles_encountered : Int
  obstacles_solved : Int
  maintained_streak : Bool
  notes : Option String
deriving DecidableEq, Repr

/-- The whole sqlite database file. -/
structure DB where
  skills : List SkillRow
  sessions : List SessionRow
  items : List ItemRow
  reviews : List ReviewRow
  challenges : List ChallengeRow
  obstacles : List ObstacleRow
  evidence : List EvidenceRow
  streaks : List StreakRow
deriving DecidableEq, Repr

/-- `AUTOINCREMENT`: next id after the existing ones. -/
def nextId (ids : List Nat) : Nat := ids.foldr max 0 + 1

def DB.findSkill (db : DB) (i : Nat) : Option SkillRow :=
  db.skills.find? (fun s => s.id = i)

def DB.findItem (db : DB) (i : Nat) : Option ItemRow :=
  db.items.find? (fun s => s.id = i)

def DB.findChallenge (db : DB) (i : Nat) : Option ChallengeRow :=
  db.challenges.find? (fun s => s.id = i)

def DB.findObstacle (db : DB) (i : Nat) : Option ObstacleRow :=
  db.obstacles.find? (fun s => s.id = i)

/-- A raised Python exception: `ValueError` for the explicit existence checks,
`sqlite3.IntegrityError` for `CHECK` and `FOREIGN KEY` constraint failures. -/
inductive DbError where
  | notFound
  | checkViolation
  | fkViolation
deriving DecidableEq, Repr

/-- Python truthiness of an optional string (`if notes:`): `None` and `""` are
falsy. -/
def truthy (o : Option String) : Bool :=
  match o with
  | none => false
  | some s => s ≠ ""

/-! ### Skill and item store operations -/

/-- `log_session` (lines 272-306): explicit existence check raising
`ValueError`, then `INSERT INTO learning_sessions` (whose
`CHECK(understanding_level BETWEEN 1 AND 5)` raises on out-of-range input),
then the `UPDATE learning_skills` of the aggregate fields. -/
def log_session (db : DB) (now : Int) (skill_id : Nat) (duration_minutes : Int)
    (topics_covered : String) (understanding_level : Int)
    (notes : Option String) (key_takeaways : Option String) :
    Except DbError (DB × Nat) :=
  match db.findSkill skill_id with
  | none => .error .notFound
  | some _ =>
    if ¬(1 ≤ understanding_level ∧ understanding_level ≤ 5) then .error .checkViolation
    else
      let sid := nextId (db.sessions.map (fun s => s.id))
      let srow : SessionRow :=
        { id := sid, skill_id := skill_id, session_date := now,
          duration_minutes := duration_minutes, topics_covered := topics_covered,
          understanding_level := understanding_level, notes := notes,
          key_takeaways := key_takeaways }
      let skills' := db.skills.map (fun s =>
        if s.id = skill_id then
          { s with last_reviewed := some now,
                   next_review := some (calculate_next_review now understanding_level),
                   total_time_minutes := s.total_time_minutes + duration_minutes }
        else s)
      .ok ({ db with sessions := db.sessions ++ [srow], skills := skills' }, sid)

/-- `add_learning_item` (lines 308-334): existence check, initial
`next_review = now + 1 day`, `INSERT INTO learning_items` whose
`CHECK(difficulty BETWEEN 1 AND 5)` raises on out-of-range difficulty. -/
def add_learning_item (db : DB) (now : Int) (skill_id : Nat) (answer : String)
    (question : Option String) (item_type : String) (difficulty : Int)
    (tags : Option String) (source : Option String) :
    Except DbError (DB × Nat) :=
  match db.findSkill skill_id with
  | none => .error .notFound
  | some _ =>
    if ¬(1 ≤ difficulty ∧ difficulty ≤ 5) then .error .checkViolation
    else
      let iid := nextId (db.items.map (fun s => s.id))
      let irow : ItemRow :=
        { id := iid, skill_id := skill_id, item_type := item_type,
          question := question, answer := answer, difficulty := difficulty,
          times_reviewed := 0, times_correct := 0, last_reviewed := none,
          next_review := some (now + 1 * secondsPerDay), confidence_level := 1,
          tags := tags, source := source }
      .ok ({ db with items := db.items ++ [irow] }, iid)

/-- `record_review` (lines 363-389): `INSERT INTO review_history` (foreign key
on `item_id` raises for a nonexistent item), then `UPDATE learning_items`
whose `CHECK(confidence_level BETWEEN 1 AND 5)` raises when
`confidence_after` is out of range. -/
def record_review (db : DB) (now : Int) (item_id : Nat) (was_correct : Bool)
    (confidence_before : Int) (confidence_after : Int)
    (time_taken_seconds : Option Int) :
    Except DbError DB :=
  match db.findItem item_id with
  | none => .error .fkViolation
  | some _ =>
    if ¬(1 ≤ confidence_after ∧ confidence_after ≤ 5) then .error .checkViolation
    else
      let rid := nextId (db.reviews.map (fun s => s.id))
      let ev : ReviewRow :=
        { id := rid, item_id := item_id, review_date := now,
          was_correct := was_correct, confidence_before := confidence_before,
          confidence_after := confidence_after, time_taken_seconds := time_taken_seconds }
      let items' := db.items.map (fun it =>
        if it.id = item_id then
          { it with times_reviewed := it.times_reviewed + 1,
                    times_correct := it.times_correct + (if was_correct then 1 else 0),
                    last_reviewed := some now,
                    next_review :=
                      some (calculate_next_review_for_item now was_correct confidence_after),
                    confidence_level := confidence_after }
        else it)
      .ok { db with reviews := db.reviews ++ [ev], items := items' }

/-! ### Due-items query (`get_items_due_for_review`, lines 336-361) -/

/-- `li.next_review IS NULL OR li.next_review <= CURRENT_TIMESTAMP`. -/
def itemDue (now : Int) (it : ItemRow) : Bool :=
  match it.next_review with
  | none => true
  | some t => t ≤ now

/-- `ORDER BY li.next_review ASC, li.confidence_level ASC`; sqlite sorts
`NULL` first in ascending order. -/
def itemKeyLe (a b : ItemRow) : Bool :=
  match a.next_review, b.next_review with
  | none, none => a.confidence_level ≤ b.confidence_level
  | none, some _ => true
  | some _, none => false
  | some x, some y => x < y ∨ (x = y ∧ a.confidence_level ≤ b.confidence_level)

def itemRel : ItemRow → ItemRow → Prop := fun a b => itemKeyLe a b = true

instance : DecidableRel itemRel := fun a b => by
  unfold itemRel; infer_instance

instance : IsTotal ItemRow itemRel := by
  constructor
  intro a b
  unfold itemRel itemKeyLe
  rcases a.next_review with _ | x <;> rcases b.next_review with _ | y <;> simp <;> omega

instance : IsTrans ItemRow itemRel := by
  constructor
  intro a b c hab hbc
  unfold itemRel itemKeyLe at *
  rcases ha : a.next_review with _ | x <;> rcases hb : b.next_review with _ | y <;>
    rcases hc : c.next_review with _ | z <;> simp_all <;> omega

/-- `get_items_due_for_review(skill_id=None, limit=10)`: the Python
`if skill_id:` truthiness test selects the filtered branch only for a
non-`None`, nonzero argument; the unfiltered branch joins on
`ls.status = 'active'`. The join `ON li.skill_id = ls.id` drops items whose
skill id does not resolve. -/
def get_items_due_for_review (db : DB) (skill_id : Option Nat) (limit : Nat)
    (now : Int) : List ItemRow :=
  if skill_id.getD 0 ≠ 0 then
    let rows := db.items.filter (fun li =>
      (db.findSkill li.skill_id).isSome && li.skill_id = skill_id.getD 0 && itemDue now li)
    (rows.insertionSort itemRel).take limit
  else
    let rows := db.items.filter (fun li =>
      match db.findSkill li.skill_id with
      | some s => itemDue now li && s.status = "active"
      | none => false)
    (rows.insertionSort itemRel).take limit

/-! ### JSON encoding of string lists

`add_challenge` stores the list-valued columns with `json.dumps` and
`get_all_challenges` reads them back with `json.loads`. The fragment of
Python's `json` module exercised by the repository — lists of strings, with
the default `ensure_ascii=True` escaping and the default `", "` separator —
is modelled here. -/

/-- Lowercase hex digit, as produced by Python's `\uXXXX` escapes. -/
def hexDigitChar (d : Nat) : Char :=
  if d < 10 then Char.ofNat (48 + d) else Char.ofNat (87 + d)

/-- Four-digit hex rendering of `n < 0x10000`. -/
def hex4 (n : Nat) : List Char :=
  [hexDigitChar (n / 4096 % 16), hexDigitChar (n / 256 % 16),
   hexDigitChar (n / 16 % 16), hexDigitChar (n % 16)]

/-- Per-character escaping of `json.dumps` with `ensure_ascii=True`: named
escapes for quote, backslash and the usual control characters, printable
ASCII unescaped, everything else as `\uXXXX` (a surrogate pair for
characters beyond the basic multilingual plane). -/
def escapeChar (c : Char) : List Char :=
  if c = '"' then ['\\', '"']
  else if c = '\\' then ['\\', '\\']
  else if c = '\n' then ['\\', 'n']
  else if c = '\r' then ['\\', 'r']
  else if c = '\t' then ['\\', 't']
  else if c.toNat = 8 then ['\\', 'b']
  else if c.toNat = 12 then ['\\', 'f']
  else if 32 ≤ c.toNat ∧ c.toNat ≤ 126 then [c]
  else if c.toNat < 65536 then '\\' :: 'u' :: hex4 c.toNat
  else
    ('\\' :: 'u' :: hex4 (55296 + (c.toNat - 65536) / 1024)) ++
    ('\\' :: 'u' :: hex4 (56320 + (c.toNat - 65536) % 1024))

/-- JSON string literal for the character list `cs`. -/
def encStr (cs : List Char) : List Char :=
  '"' :: (cs.map escapeChar).flatten ++ ['"']

/-- The `", ".join` shape of `json.dumps`'s default separator. -/
def sepJoin : List (List Char) → List Char
  | [] => []
  | [x] => x
  | x :: y :: xs => x ++ ',' :: ' ' :: sepJoin (y :: xs)

/-- `json.dumps` on a list of strings. -/
def json_dumps (l : List String) : String :=
  String.mk ('[' :: sepJoin (l.map (fun s => encStr s.data)) ++ [']'])

/-- JSON whitespace (`json.loads` skips space, tab, newline, return). -/
def isJsonWs (c : Char) : Bool :=
  c = ' ' ∨ c = '\t' ∨ c = '\n' ∨ c = '\r'

def skipWs (l : List Char) : List Char := l.dropWhile isJsonWs

/-- Value of one hex digit, upper or lower case. -/
def hexVal (c : Char) : Option Nat :=
  if 48 ≤ c.toNat ∧ c.toNat ≤ 57 then some (c.toNat - 48)
  else if 97 ≤ c.toNat ∧ c.toNat ≤ 102 then some (c.toNat - 87)
  else if 65 ≤ c.toNat ∧ c.toNat ≤ 70 then some (c.toNat - 55)
  else none

/-- Single-character escapes accepted by `json.loads`. -/
def unescapeSimple (e : Char) : Option Char :=
  if e = '"' then some '"'
  else if e = '\\' then some '\\'
  else if e = '/' then some '/'
  else if e = 'n' then some '\n'
  else if e = 'r' then some '\r'
  else if e = 't' then some '\t'
  else if e = 'b' then some (Char.ofNat 8)
  else if e = 'f' then some (Char.ofNat 12)
  else none

/-- First phase of reading a JSON string literal: scan for the closing quote,
jumping over backslash escapes, and return the raw escaped chunk together
with the input after the closing quote. -/
def splitAtClose : List Char → Option (List Char × List Char)
  | [] => none
  | c :: rest =>
    if c = '"' then some ([], rest)
    else if c = '\\' then
      match rest with
      | [] => none
      | e :: t => (splitAtClose t).map (fun p => (c :: e :: p.1, p.2))
    else (splitAtClose rest).map (fun p => (c :: p.1, p.2))

theorem splitAtClose_length {t chunk r : List Char}
    (h : splitAtClose t = some (chunk, r)) : r.length < t.length := by
  induction t using splitAtClose.induct generalizing chunk r with
  | case1 => simp [splitAtClose] at h
  | case2 t =>
    rw [splitAtClose.eq_def] at h
    simp at h
    obtain ⟨h1, h2⟩ := h
    subst h2
    simp
  | case3 hne =>
    rw [splitAtClose.eq_def] at h
    simp at h
  | case4 e t hne ih =>
    rw [splitAtClose.eq_def] at h
    simp [Option.map_eq_some'] at h
    obtain ⟨p1, hp, hc⟩ := h
    have := ih hp
    simp
    omega
  | case5 e t h1 h2 ih =>
    rw [splitAtClose.eq_def] at h
    simp [h1, h2, Option.map_eq_some'] at h
    obtain ⟨p1, hp, hc⟩ := h
    have := ih hp
    simp
    omega

/-- Hex value of four digit characters at once. -/
def hexVal4 (a b c d : Char) : Option Nat :=
  match hexVal a, hexVal b, hexVal c, hexVal d with
  | some va, some vb, some vc, some vd => some (va * 4096 + vb * 256 + vc * 16 + vd)
  | _, _, _, _ => none

/-- One escape group or raw character at the head of a scanned chunk:
returns the decoded character and the remaining input. Python's strict mode
rejects raw control characters and unknown escapes; a `\uXXXX` high
surrogate must be followed by a low surrogate (a lone surrogate would not be
a valid Lean `Char`); a `\u` with fewer than four following characters and
a dangling backslash are rejected. -/
def readGroup : List Char → Option (Char × List Char)
  | [] => none
  | c :: rest =>
    if c = '\\' then
      match rest with
      | [] => none
      | e :: t =>
        if e = 'u' then
          match t with
          | a :: b :: d3 :: d4 :: t1 =>
            match hexVal4 a b d3 d4 with
            | none => none
            | some n =>
              if 55296 ≤ n ∧ n ≤ 56319 then
                match t1 with
                | g :: h :: a2 :: b2 :: c2 :: d2 :: t2 =>
                  if g = '\\' ∧ h = 'u' then
                    match hexVal4 a2 b2 c2 d2 with
                    | none => none
                    | some m =>
                      if 56320 ≤ m ∧ m ≤ 57343 then
                        some (Char.ofNat (65536 + (n - 55296) * 1024 + (m - 56320)), t2)
                      else none
                  else none
                | _ => none
              else if 56320 ≤ n ∧ n ≤ 57343 then none
              else some (Char.ofNat n, t1)
          | _ => none
        else
          match unescapeSimple e with
          | some uc => some (uc, t)
          | none => none
    else if 32 ≤ c.toNat ∧ c ≠ '"' then some (c, rest)
    else none

/-- Second phase: decode the escapes inside a scanned chunk, one group at a
time. The `fuel` counter exists only for structural recursion: every group
consumes at least one character, so any fuel of at least the chunk length
plus one behaves exactly like the unbounded loop. -/
def decodeEsc (fuel : Nat) (l : List Char) : Option (List Char) :=
  match fuel with
  | 0 =>
    match l with
    | [] => some []
    | _ :: _ => none
  | fuel + 1 =>
    match l with
    | [] => some []
    | _ :: _ =>
      match readGroup l with
      | some (c, rest) => (decodeEsc fuel rest).map (fun s => c :: s)
      | none => none

/-- A JSON string literal including its opening quote: scan to the closing
quote, then decode the chunk. -/
def parseJsonString : List Char → Option (List Char × List Char)
  | [] => none
  | c :: rest =>
    if c = '"' then
      match splitAtClose rest with
      | some (chunk, r) => (decodeEsc (chunk.length + 1) chunk).map (fun s => (s, r))
      | none => none
    else none

/-- After the first element of a JSON array: repeatedly a comma, optional
whitespace and a string, until the closing bracket. The `fuel` counter only
bounds the number of loop iterations for structural recursion; each
iteration consumes at least three characters (a comma and a quoted string),
so any fuel of at least the remaining input length plus one behaves exactly
like the unbounded loop of Python's scanner. -/
def parseListRest (fuel : Nat) (l : List Char) : Option (List (List Char) × List Char) :=
  match fuel with
  | 0 => none
  | fuel + 1 =>
    match skipWs l with
    | ']' :: r => some ([], r)
    | ',' :: r =>
      match parseJsonString (skipWs r) with
      | some (s, r2) =>
        match parseListRest fuel r2 with
        | some (ss, r3) => some (s :: ss, r3)
        | none => none
      | none => none
    | _ => none

/-- `json.loads` restricted to the JSON texts this repository stores in its
list-valued columns: an array of string literals (the decoder accepts the
usual whitespace and escape forms; everything else is a failure, which in
Python would be a raised `json.JSONDecodeError`). -/
def json_loads (s : String) : Option (List String) :=
  match skipWs s.data with
  | '[' :: r =>
    match skipWs r with
    | ']' :: r2 => if skipWs r2 = [] then some [] else none
    | r1 =>
      match parseJsonString r1 with
      | some (x, r2) =>
        match parseListRest (r2.length + 1) r2 with
        | some (xs, r3) =>
          if skipWs r3 = [] then some ((x :: xs).map (fun cs => String.mk cs)) else none
        | none => none
      | none => none
  | _ => none

/-! ### Challenge and obstacle operations (`learning_tracker.py` lines 582-855) -/

/-- `add_challenge` (lines 582-611): stores `json.dumps(skills_taught)`,
`json.dumps(prerequisites or [])`, `json.dumps(unlocks or [])`; the
`FOREIGN KEY (skill_id)` and the `CHECK(difficulty IN ...)` constraints of
`learning_challenges` raise for a bad skill id or difficulty. Python's
`x or []` yields `[]` for both `None` and `[]`. -/
def add_challenge (db : DB) (now : Int) (title : String) (description : String)
    (skill_id : Nat) (difficulty : String) (estimated_hours : Int)
    (skills_taught : List String) (prerequisites : Option (List String))
    (unlocks : Option (List String)) :
    Except DbError (DB × Nat) :=
  if (db.findSkill skill_id).isNone then .error .fkViolation
  else if ¬(difficulty = "beginner" ∨ difficulty = "intermediate" ∨ difficulty = "advanced") then
    .error .checkViolation
  else
    let cid := nextId (db.challenges.map (fun c => c.id))
    let row : ChallengeRow :=
      { id := cid, title := title, description := description, skill_id := skill_id,
        difficulty := difficulty, estimated_hours := estimated_hours,
        skills_taught := json_dumps skills_taught,
        prerequisites := json_dumps (prerequisites.getD []),
        unlocks := json_dumps (unlocks.getD []),
        status := "not_started", progress_percent := 0, time_spent := 0,
        github_link := none, notes := none, started_at := none,
        completed_at := none, created_at := now }
    .ok ({ db with challenges := db.challenges ++ [row] }, cid)

/-- A challenge row as `get_all_challenges` returns it: `dict(row)` with the
three JSON text columns replaced by the decoded lists. -/
structure ChallengeDict where
  id : Nat
  title : String
  description : String
  skill_id : Nat
  difficulty : String
  estimated_hours : Int
  skills_taught : List String
  prerequisites : List String
  unlocks : List String
  status : String
  progress_percent : Int
  time_spent : Int
  github_link : Option String
  notes : Option String
  started_at : Option Int
  completed_at : Option Int
  created_at : Int
deriving DecidableEq, Repr

/-- `json.loads(challenge[field]) if challenge[field] else []` — the empty
string is falsy; a decode failure is a raised exception, hence `none`. -/
def decodeListField (s : String) : Option (List String) :=
  if s = "" then some [] else json_loads s

def decodeChallenge (c : ChallengeRow) : Option ChallengeDict :=
  match decodeListField c.skills_taught, decodeListField c.prerequisites,
        decodeListField c.unlocks with
  | some st, some pr, some ul =>
    some { id := c.id, title := c.title, description := c.description,
           skill_id := c.skill_id, difficulty := c.difficulty,
           estimated_hours := c.estimated_hours, skills_taught := st,
           prerequisites := pr, unlocks := ul, status := c.status,
           progress_percent := c.progress_percent, time_spent := c.time_spent,
           github_link := c.github_link, notes := c.notes,
           started_at := c.started_at, completed_at := c.completed_at,
           created_at := c.created_at }
  | _, _, _ => none

/-- Decodes every row in order; the first failing `json.loads` aborts the
whole call (a raised exception in Python). -/
def decodeAll : List ChallengeRow → Option (List ChallengeDict)
  | [] => some []
  | c :: cs =>
    match decodeChallenge c, decodeAll cs with
    | some d, some ds => some (d :: ds)
    | _, _ => none

/-- `ORDER BY created_at DESC`. -/
def createdDescRel : ChallengeRow → ChallengeRow → Prop :=
  fun a b => b.created_at ≤ a.created_at

instance : DecidableRel createdDescRel := fun a b => by
  unfold createdDescRel; infer_instance

instance : IsTotal ChallengeRow createdDescRel :=
  ⟨fun a b => le_total b.created_at a.created_at⟩

instance : IsTrans ChallengeRow createdDescRel :=
  ⟨fun _ _ _ hab hbc => le_trans hbc hab⟩

/-- `get_all_challenges(skill_id=None, status=None)` (lines 613-649): the
dynamic `WHERE` clause is appended only under Python truthiness of each
argument, rows are ordered by `created_at DESC` and each row's JSON fields
are decoded. -/
def get_all_challenges (db : DB) (skill_id : Option Nat) (status : Option String) :
    Option (List ChallengeDict) :=
  let rows := db.challenges.filter (fun c =>
    (skill_id.getD 0 = 0 ∨ c.skill_id = skill_id.getD 0) ∧
    (status.getD "" = "" ∨ c.status = status.getD ""))
  decodeAll (rows.insertionSort createdDescRel)

/-- `start_challenge` (lines 651-671): one unconditional `UPDATE` to
`in_progress`; returns `cursor.rowcount > 0`. -/
def start_challenge (db : DB) (now : Int) (challenge_id : Nat) : DB × Bool :=
  let challenges' := db.challenges.map (fun c =>
    if c.id = challenge_id then { c with status := "in_progress", started_at := some now }
    else c)
  ({ db with challenges := challenges' }, db.challenges.any (fun c => c.id = challenge_id))

/-- `update_challenge_progress` (lines 673-711): reads the current
`time_spent` (returning `False` when the id does not resolve), overwrites
`progress_percent`, accumulates `time_spent`, and overwrites `notes` only
when the argument is truthy. -/
def update_challenge_progress (db : DB) (challenge_id : Nat) (progress_percent : Int)
    (time_spent_minutes : Int) (notes : Option String) : DB × Bool :=
  match db.findChallenge challenge_id with
  | none => (db, false)
  | some row =>
    let new_time := row.time_spent + time_spent_minutes
    let challenges' := db.challenges.map (fun c =>
      if c.id = challenge_id then
        { c with progress_percent := progress_percent, time_spent := new_time,
                 notes := if truthy notes then notes else c.notes }
      else c)
    ({ db with challenges := challenges' }, true)

/-- `complete_challenge` (lines 713-759): unconditional `UPDATE` to
`completed` with `progress_percent = 100`;
`notes = COALESCE(notes || char(10) || char(10), '') || 'Final notes: ...'`
appends rather than overwrites; afterwards a `SELECT` fetches `skill_id` and,
only if a row came back, inserts one `skill_evidence` record; the function
returns `True` in every path. -/
def complete_challenge (db : DB) (now : Int) (challenge_id : Nat)
    (github_link : Option String) (final_notes : Option String) : DB × Bool :=
  let challenges' := db.challenges.map (fun c =>
    if c.id = challenge_id then
      { c with status := "completed", completed_at := some now, progress_percent := 100,
               github_link := if truthy github_link then github_link else c.github_link,
               notes :=
                 if truthy final_notes then
                   some ((match c.notes with
                          | some n => n ++ "\n\n"
                          | none => "") ++ "Final notes: " ++ final_notes.getD "")
                 else c.notes }
    else c)
  let db' := { db with challenges := challenges' }
  let newEvidence : List EvidenceRow :=
    match db'.findChallenge challenge_id with
    | some row =>
      [{ skill_id := row.skill_id, challenge_id := challenge_id,
         evidence_type := "project_completed",
         description := "Completed full challenge" }]
    | none => []
  ({ db' with evidence := db'.evidence ++ newEvidence }, true)

/-- `log_obstacle` (lines 761-778): insert with status `'blocking'`; the
foreign key on `challenge_id` raises for a nonexistent challenge. -/
def log_obstacle (db : DB) (now : Int) (challenge_id : Nat) (description : String) :
    Except DbError (DB × Nat) :=
  if (db.findChallenge challenge_id).isNone then .error .fkViolation
  else
    let oid := nextId (db.obstacles.map (fun o => o.id))
    let orow : ObstacleRow :=
      { id := oid, challenge_id := challenge_id, obstacle_description := description,
        solution := none, insight := none, time_to_solve := none,
        resources_used := none, status := "blocking", created_at := now,
        solved_at := none }
    .ok ({ db with obstacles := db.obstacles ++ [orow] }, oid)

/-- `solve_obstacle` (lines 780-823): unconditional `UPDATE` to `'solved'`;
then a join fetches the challenge and skill ids and, only if a row came
back, inserts one `skill_evidence` record with the first 200 characters of
the solution; returns `True` in every path. -/
def solve_obstacle (db : DB) (now : Int) (obstacle_id : Nat) (solution : String)
    (insight : Option String) (time_to_solve : Option Int)
    (resources_used : Option String) : DB × Bool :=
  let obstacles' := db.obstacles.map (fun o =>
    if o.id = obstacle_id then
      { o with solution := some solution, insight := insight,
               time_to_solve := time_to_solve, resources_used := resources_used,
               status := "solved", solved_at := some now }
    else o)
  let db' := { db with obstacles := obstacles' }
  let newEvidence : List EvidenceRow :=
    match db'.findObstacle obstacle_id with
    | some o =>
      match db'.findChallenge o.challenge_id with
      | some lc =>
        [{ skill_id := lc.skill_id, challenge_id := o.challenge_id,
           evidence_type := "obstacle_overcome",
           description := solution.take 200 }]
      | none => []
    | none => []
  ({ db' with evidence := db'.evidence ++ newEvidence }, true)

/-! ### Streak aggregator (`learning_tracker.py` lines 857-958) -/

/-- `log_daily_streak` (lines 857-897): upsert keyed by `date.today()`. An
existing row for today accumulates the minutes and obstacle counters and
appends the notes; otherwise a fresh row is inserted (the foreign key on
`challenge_worked_on` raises for a non-null nonexistent challenge id,
`maintained_streak` takes its schema default `1`). -/
def log_daily_streak (db : DB) (today : Int) (minutes_worked : Int)
    (challenge_id : Option Nat) (obstacles_encountered : Int)
    (obstacles_solved : Int) (notes : Option String) : Except DbError DB :=
  if db.streaks.any (fun r => r.date = today) then
    .ok { db with streaks := db.streaks.map (fun r =>
      if r.date = today then
        { r with minutes_worked := r.minutes_worked + minutes_worked,
                 obstacles_encountered := r.obstacles_encountered + obstacles_encountered,
                 obstacles_solved := r.obstacles_solved + obstacles_solved,
                 notes := some ((match r.notes with
                                 | some n => n ++ "\n"
                                 | none => "") ++ notes.getD "") }
      else r) }
  else
    match challenge_id with
    | some cid =>
      if (db.findChallenge cid).isNone then .error .fkViolation
      else
        .ok { db with streaks := db.streaks ++
          [{ date := today, minutes_worked := minutes_worked,
             challenge_worked_on := challenge_id,
             obstacles_encountered := obstacles_encountered,
             obstacles_solved := obstacles_solved, maintained_streak := true,
             notes := notes }] }
    | none =>
      .ok { db with streaks := db.streaks ++
        [{ date := today, minutes_worked := minutes_worked,
           challenge_worked_on := none,
           obstacles_encountered := obstacles_encountered,
           obstacles_solved := obstacles_solved, maintained_streak := true,
           notes := notes }] }

/-- `ORDER BY date DESC` over the `maintained_streak = 1` rows. -/
def dateDescRel : Int → Int → Prop := fun a b => b ≤ a

instance : DecidableRel dateDescRel := fun a b => by
  unfold dateDescRel; infer_instance

instance : IsTotal Int dateDescRel := ⟨fun a b => le_total b a⟩

instance : IsTrans Int dateDescRel := ⟨fun _ _ _ hab hbc => le_trans hbc hab⟩

def streakDatesDesc (db : DB) : List Int :=
  ((db.streaks.filter (fun r => r.maintained_streak)).map (fun r => r.date)).insertionSort
    dateDescRel

/-- The `for streak_date in dates:` walk of `get_streak_stats`: counts while
each date equals `check_date`, decrementing by one day, and breaks at the
first mismatch. -/
def currentStreakWalk : List Int → Int → Nat
  | [], _ => 0
  | d :: ds, check => if d = check then 1 + currentStreakWalk ds (check - 1) else 0

/-- The longest-streak loop: runs over adjacent pairs of the descending date
list, extending the run on a gap of exactly one day. -/
def longestAux : List Int → Nat → Nat → Nat
  | d1 :: d2 :: rest, run, best =>
    if d1 - d2 = 1 then longestAux (d2 :: rest) (run + 1) (max best (run + 1))
    else longestAux (d2 :: rest) 1 best
  | _, _, best => best

structure StreakStats where
  current_streak : Nat
  longest_streak : Nat
  total_days : Nat
deriving DecidableEq, Repr

/-- `get_streak_stats` (lines 899-958). -/
def get_streak_stats (db : DB) (today : Int) : StreakStats :=
  let dates := streakDatesDesc db
  if dates = [] then { current_streak := 0, longest_streak := 0, total_days := 0 }
  else
    { current_streak := currentStreakWalk dates today,
      longest_streak := longestAux dates 1 1,
      total_days := dates.length }

/-! ### Roadmap parser (`_parse_and_create_challenges`, `src/main.py` lines 1850-1970)

Each regular expression of the source is translated as an explicit scanner:
`re.split(r'(?:^|\n)\**CHALLENGE:\s*', text, flags=re.MULTILINE)` for the
block split, and the field patterns documented on each definition, with the
greedy `\s*` / lazy `(.+?)` backtracking reproduced. -/

/-- Python's `\s` on the ASCII range: space, tab, newline, return, vertical
tab, form feed. -/
def isPySpace (c : Char) : Bool :=
  c = ' ' ∨ c = '\t' ∨ c = '\n' ∨ c = '\r' ∨ c.toNat = 11 ∨ c.toNat = 12

def challengeMarker : List Char := "CHALLENGE:".data

/-- One attempt of the split separator at the current position:
`\**CHALLENGE:\s*` — any asterisks, the literal marker (case-sensitive),
then greedy whitespace. Returns the input after the separator and whether
the last whitespace consumed was a newline (the next position is then at a
line start). -/
def matchMarker (l : List Char) : Option (List Char × Bool) :=
  if challengeMarker.isPrefixOf (l.dropWhile (fun c => c = '*')) then
    some
      (((l.dropWhile (fun c => c = '*')).drop challengeMarker.length).dropWhile isPySpace,
       (((l.dropWhile (fun c => c = '*')).drop challengeMarker.length).takeWhile
          isPySpace).getLast? == some '\n')
  else none

theorem matchMarker_length {l : List Char} {tail : List Char} {b : Bool}
    (h : matchMarker l = some (tail, b)) : tail.length + 10 ≤ l.length := by
  unfold matchMarker at h
  split at h
  · rename_i hpre
    simp at h
    have h1 : challengeMarker.length ≤ (l.dropWhile (fun c => c = '*')).length :=
      (List.isPrefixOf_iff_prefix.mp hpre).length_le
    have h2 : (l.dropWhile (fun c => c = '*')).length ≤ l.length :=
      (List.dropWhile_sublist _).length_le
    have h3 : tail.length ≤
        ((l.dropWhile (fun c => c = '*')).drop challengeMarker.length).length := by
      rw [← h.1]
      exact (List.dropWhile_sublist _).length_le
    have h4 : challengeMarker.length = 10 := by decide
    simp [List.length_drop] at h3
    omega
  · simp at h

/-- The scan of `re.split(r'(?:^|\n)\**CHALLENGE:\s*', ...)`: at a line-start
position the zero-width `^` alternative is tried first, then the
newline-consuming alternative; elsewhere only the latter; on failure the
scan advances one character, accumulating the current block. The `fuel`
counter exists only for structural recursion: every step consumes at least
one input character and one unit of fuel, so any fuel of at least the input
length plus one behaves exactly like the unbounded scan. -/
def splitChallengeAux : Nat → List Char → Bool → List Char → List (List Char)
  | 0, _, _, acc => [acc.reverse]
  | _ + 1, [], _, acc => [acc.reverse]
  | fuel + 1, c :: rest, bol, acc =>
    if bol then
      match matchMarker (c :: rest) with
      | some (tail, endsNl) => acc.reverse :: splitChallengeAux fuel tail endsNl []
      | none =>
        if c = '\n' then
          match matchMarker rest with
          | some (tail, endsNl) => acc.reverse :: splitChallengeAux fuel tail endsNl []
          | none => splitChallengeAux fuel rest true (c :: acc)
        else splitChallengeAux fuel rest false (c :: acc)
    else
      if c = '\n' then
        match matchMarker rest with
        | some (tail, endsNl) => acc.reverse :: splitChallengeAux fuel tail endsNl []
        | none => splitChallengeAux fuel rest true (c :: acc)
      else splitChallengeAux fuel rest false (c :: acc)

def split_challenge_blocks (text : List Char) : List (List Char) :=
  splitChallengeAux (text.length + 1) text true []

/-- `text.split()` of Python: whitespace-run separated, non-empty words,
collected with an accumulator for the word in progress. -/
def pySplitAux : List Char → List Char → List (List Char)
  | [], acc => if acc.isEmpty then [] else [acc.reverse]
  | c :: rest, acc =>
    if isPySpace c then
      if acc.isEmpty then pySplitAux rest [] else acc.reverse :: pySplitAux rest []
    else pySplitAux rest (c :: acc)

def pySplitWords (l : List Char) : List (List Char) :=
  pySplitAux l []

/-- `clean_text`: `re.sub(r'\*+', '', text)` then `' '.join(text.split())`. -/
def cleanText (l : List Char) : List Char :=
  List.intercalate [' '] (pySplitWords (l.filter (fun c => ¬ c = '*')))

/-- `re.search(r'^(.+?)(?:\n|$)', block)`: fails on an empty block or one
starting with a newline (`.` does not match a newline and `^` only matches
at the start without `re.MULTILINE`); otherwise the first line. -/
def firstLineTitle (block : List Char) : Option (List Char) :=
  match block with
  | [] => none
  | c :: _ => if c = '\n' then none else some (block.takeWhile (fun x => ¬ x = '\n'))

/-- Case-insensitive prefix test against a lowercase pattern
(`re.IGNORECASE`). -/
def ciPrefixOf (pat : List Char) (l : List Char) : Bool :=
  (l.take pat.length).map Char.toLower == pat

/-- `re.search`: try the matcher at each position left to right. -/
def searchAux (f : List Char → Option α) : List Char → Option α
  | [] => none
  | l@(_ :: rest) =>
    match f l with
    | some a => some a
    | none => searchAux f rest

/-- Continuation `\s*(.+?)(?:\n|$)` after a field marker: the greedy `\s*`
starts at its maximal extent `w` and backtracks; at each extent the lazy
`(.+?)` can only match the full non-newline run, which must be non-empty. -/
def backtrackLineValue (rest : List Char) : Nat → Option (List Char)
  | 0 =>
    let run := rest.takeWhile (fun c => ¬ c = '\n')
    if run.isEmpty then none else some run
  | w + 1 =>
    let run := (rest.drop (w + 1)).takeWhile (fun c => ¬ c = '\n')
    if run.isEmpty then backtrackLineValue rest w else some run

/-- `re.search(r'DIFFICULTY:\s*(.+?)(?:\n|$)', block, re.IGNORECASE)` matcher
at one position (used with `searchAux`, and reused for any
line-valued field). -/
def lineValueAt (marker : List Char) (l : List Char) : Option (List Char) :=
  if ciPrefixOf marker l then
    let rest := l.drop marker.length
    backtrackLineValue rest (rest.takeWhile isPySpace).length
  else none

def digitsToNat (ds : List Char) : Nat :=
  ds.foldl (fun acc c => acc * 10 + (c.toNat - 48)) 0

/-- `re.search(r'HOURS?:\s*(\d+)', block, re.IGNORECASE)` at one position:
the optional `S` is greedy, whitespace cannot backtrack into a digit. -/
def hoursAt (l : List Char) : Option Nat :=
  let k : Option Nat :=
    if ciPrefixOf "hours:".data l then some 6
    else if ciPrefixOf "hour:".data l then some 5
    else none
  match k with
  | none => none
  | some k =>
    let rest := (l.drop k).dropWhile isPySpace
    let ds := rest.takeWhile (fun c => c.isDigit)
    if ds.isEmpty then none else some (digitsToNat ds)

/-- Inside a field terminator `\n\s*(:markers:|$)`: after the newline, the
greedy `\s*` backtracks from its maximal run, but every marker starts with a
letter, so a marker can only match right after the full run; `$` (end of
string, or just before a final newline) succeeds exactly when the rest is
all whitespace. -/
def afterNlOk (markers : List (List Char)) (t : List Char) : Bool :=
  let t1 := t.dropWhile isPySpace
  t1.isEmpty ∨ markers.any (fun m => ciPrefixOf m t1)

/-- Smallest `q` with `q > start - 1` at which
`(?:\n\s*(?:markers|$))` matches (scanning for the lazy `(.+?)` of the
`DESCRIPTION` pattern, whose dot matches newlines under `re.DOTALL`). -/
def descFindQAux (markers : List (List Char)) : List Char → Nat → Option Nat
  | [], _ => none
  | c :: tl, q =>
    if c = '\n' ∧ afterNlOk markers tl = true then some q
    else descFindQAux markers tl (q + 1)

def descFindQ (rest : List Char) (markers : List (List Char)) (q : Nat) :
    Option Nat :=
  descFindQAux markers (rest.drop q) q

/-- Backtracking of the greedy `\s*` for the `DESCRIPTION` pattern: at
whitespace extent `w` the lazy dot-all value runs from `w` to the first
usable terminator strictly beyond it. -/
def descBacktrack (rest : List Char) (markers : List (List Char)) :
    Nat → Option (List Char)
  | 0 =>
    match descFindQ rest markers 1 with
    | some q => some (rest.take q)
    | none => none
  | w + 1 =>
    match descFindQ rest markers (w + 2) with
    | some q => some ((rest.drop (w + 1)).take (q - (w + 1)))
    | none => descBacktrack rest markers w

def descTermMarkers : List (List Char) :=
  ["skills:".data, "skill:".data, "prerequisites:".data, "prerequisite:".data,
   "challenge:".data]

/-- `re.search(r'DESCRIPTION:\s*(.+?)(?:\n\s*(?:SKILLS?:|PREREQUISITES?:|CHALLENGE:|$))', block, re.DOTALL | re.IGNORECASE)`
at one position. -/
def descriptionAt (l : List Char) : Option (List Char) :=
  if ciPrefixOf "description:".data l then
    let rest := l.drop 12
    descBacktrack rest descTermMarkers (rest.takeWhile isPySpace).length
  else none

/-- One whitespace extent of a line-valued field with a marker terminator
(no `re.DOTALL`): the lazy value is the full non-newline run, which must be
followed by a newline and a usable terminator. -/
def lineFieldTry (rest : List Char) (markers : List (List Char)) (w : Nat) :
    Option (List Char) :=
  let run := (rest.drop w).takeWhile (fun c => ¬ c = '\n')
  if run.isEmpty then none
  else if (rest.drop (w + run.length)).head? = some '\n' ∧
      afterNlOk markers (rest.drop (w + run.length + 1)) = true then some run
  else none

def lineFieldBacktrack (rest : List Char) (markers : List (List Char)) :
    Nat → Option (List Char)
  | 0 => lineFieldTry rest markers 0
  | w + 1 =>
    match lineFieldTry rest markers (w + 1) with
    | some v => some v
    | none => lineFieldBacktrack rest markers w

def skillsTermMarkers : List (List Char) :=
  ["prerequisites:".data, "prerequisite:".data, "challenge:".data]

/-- `re.search(r'SKILLS?:\s*(.+?)(?:\n\s*(?:PREREQUISITES?:|CHALLENGE:|$))', block, re.IGNORECASE)`
at one position; the greedy `S?` tries the longer marker first. -/
def skillsAt (l : List Char) : Option (List Char) :=
  if ciPrefixOf "skills:".data l then
    let rest := l.drop 7
    lineFieldBacktrack rest skillsTermMarkers (rest.takeWhile isPySpace).length
  else if ciPrefixOf "skill:".data l then
    let rest := l.drop 6
    lineFieldBacktrack rest skillsTermMarkers (rest.takeWhile isPySpace).length
  else none

/-- `re.search(r'PREREQUISITES?:\s*(.+?)(?:\n\s*(?:CHALLENGE:|$))', block, re.IGNORECASE)`
at one position. -/
def prereqAt (l : List Char) : Option (List Char) :=
  if ciPrefixOf "prerequisites:".data l then
    let rest := l.drop 14
    lineFieldBacktrack rest ["challenge:".data] (rest.takeWhile isPySpace).length
  else if ciPrefixOf "prerequisite:".data l then
    let rest := l.drop 13
    lineFieldBacktrack rest ["challenge:".data] (rest.takeWhile isPySpace).length
  else none

/-- Python `str.strip()`. -/
def stripWs (l : List Char) : List Char :=
  ((l.dropWhile isPySpace).reverse.dropWhile isPySpace).reverse

/-- `[s.strip() for s in text.split(',') if s.strip()]`. -/
def splitCommas (l : List Char) : List (List Char) :=
  ((l.splitOn ',').map stripWs).filter (fun w => ¬ w.isEmpty)

/-- `'none' in prereqs_text.lower()`. -/
def containsNoneCI (l : List Char) : Bool :=
  decide ("none".data <:+: l.map Char.toLower)

/-- One parsed `CHALLENGE:` block, before insertion. -/
structure ChallengeDraft where
  title : String
  difficulty : String
  estimated_hours : Nat
  description : String
  skills_taught : List String
  prerequisites : List String
deriving DecidableEq, Repr

/-- The per-block body of the `for block in challenge_blocks[1:]` loop:
`None` exactly when the block is skipped by `continue` (missing or short
title); every other path produces a draft with the documented defaults. -/
def parseBlock (block : List Char) : Option ChallengeDraft :=
  match firstLineTitle block with
  | none => none
  | some line =>
    let title := cleanText line
    if title.isEmpty ∨ title.length < 3 then none
    else
      let difficulty :=
        match searchAux (lineValueAt "difficulty:".data) block with
        | some v =>
          let d := (cleanText v).map Char.toLower
          if d = "beginner".data ∨ d = "intermediate".data ∨ d = "advanced".data then d
          else "intermediate".data
        | none => "intermediate".data
      let hours := (searchAux hoursAt block).getD 5
      let description :=
        match searchAux descriptionAt block with
        | some v => cleanText v
        | none => title
      let description :=
        if 500 < description.length then description.take 497 ++ "...".data
        else description
      let skills0 :=
        match searchAux skillsAt block with
        | some v => splitCommas (cleanText v)
        | none => []
      let skills_taught := if skills0.isEmpty then [title] else skills0
      let prerequisites :=
        match searchAux prereqAt block with
        | some v =>
          let t := cleanText v
          if containsNoneCI t then [] else splitCommas t
        | none => []
      some { title := String.mk title, difficulty := String.mk difficulty,
             estimated_hours := hours, description := String.mk description,
             skills_taught := skills_taught.map (fun w => String.mk w),
             prerequisites := prerequisites.map (fun w => String.mk w) }

/-- The pure parsing content of `_parse_and_create_challenges`: the text
before the first marker (`challenge_blocks[0]`) is discarded, each remaining
block is parsed, skipped blocks are dropped. -/
def parse_challenges (roadmap_text : String) : List ChallengeDraft :=
  ((split_challenge_blocks roadmap_text.data).drop 1).filterMap parseBlock

/-- `_parse_and_create_challenges` itself: inserts each draft through
`add_challenge` with `unlocks=[]`, counting successes; a raised insertion
error is caught by the per-block `except` and skipped. -/
def parse_and_create_challenges (db : DB) (now : Int) (roadmap_text : String)
    (skill_id : Nat) : DB × Nat :=
  (parse_challenges roadmap_text).foldl
    (fun (st : DB × Nat) d =>
      match add_challenge st.1 now d.title d.description skill_id d.difficulty
          (d.estimated_hours : Int) d.skills_taught (some d.prerequisites)
          (some []) with
      | .ok (db', _) => (db', st.2 + 1)
      | .error _ => (st.1, st.2))
    (db, 0)

/-! ### Challenge recommendation -/

/-- Titles of the completed challenges of a skill, the prerequisite-matching
universe of the recommendation algorithm. -/
def completedTitles (db : DB) (skill_id : Nat) : List String :=
  ((db.challenges.filter (fun c => c.skill_id = skill_id ∧ c.status = "completed")).map
    (fun c => c.title))

/-- A `not_started` challenge of the skill whose decoded prerequisites are
all titles of completed challenges of the same skill. -/
def eligibleChallenge (db : DB) (skill_id : Nat) (c : ChallengeRow) : Bool :=
  c.skill_id = skill_id ∧ c.status = "not_started" ∧
    ((decodeListField c.prerequisites).getD []).all
      (fun p => (completedTitles db skill_id).contains p)

/-- What `_get_recommendation` in `src/main.py` reads off the returned
mapping: the challenge row plus `reason`, `skill_gap` and `unlocks`. -/
structure Recommendation where
  challenge : ChallengeRow
  reason : String
  skill_gap : String
  unlocks : List String
deriving DecidableEq, Repr

/-- Modelled from the spec: `get_recommended_challenge` is called on the
tracker from `src/main.py` (lines 1698 and 2011) but no definition of it
exists anywhere under `src/`. Following the specification text: among
`not_started` challenges for the skill whose prerequisites (matched against
titles of completed challenges of the same skill) are all satisfied, select
one deterministically (declared order), returning it with a human-readable
justification and the titles it unlocks; return nothing when no eligible
challenge exists. -/
def get_recommended_challenge (db : DB) (skill_id : Nat) : Option Recommendation :=
  match (db.challenges.filter (eligibleChallenge db skill_id)) with
  | [] => none
  | c :: _ =>
    some { challenge := c,
           reason := "All prerequisites are completed, so this is the next unlocked step.",
           skill_gap := "Practices: " ++ String.intercalate ", "
             ((decodeListField c.skills_taught).getD []),
           unlocks := (decodeListField c.unlocks).getD [] }

/-! ### Concrete fixtures used by witnesses and counterexamples -/

def skillRow1 : SkillRow :=
  { id := 1, skill_name := "Python", category := none, difficulty := "beginner",
    target_level := none, status := "active", last_reviewed := none,
    next_review := none, total_time_minutes := 0, notes := none }

def itemRow1 : ItemRow :=
  { id := 1, skill_id := 1, item_type := "concept", question := none,
    answer := "lists are mutable", difficulty := 3, times_reviewed := 0,
    times_correct := 0, last_reviewed := none, next_review := some 50,
    confidence_level := 2, tags := none, source := none }

def challengeDone : ChallengeRow :=
  { id := 1, title := "Basics", description := "d", skill_id := 1,
    difficulty := "beginner", estimated_hours := 5, skills_taught := "[]",
    prerequisites := "[]", unlocks := "[]", status := "completed",
    progress_percent := 100, time_spent := 0, github_link := none, notes := none,
    started_at := none, completed_at := some 0, created_at := 0 }

def emptyDB : DB :=
  { skills := [], sessions := [], items := [], reviews := [], challenges := [],
    obstacles := [], evidence := [], streaks := [] }

def dbSkill : DB := { emptyDB with skills := [skillRow1] }

def dbSkillItem : DB := { emptyDB with skills := [skillRow1], items := [itemRow1] }

def dbCompleted : DB := { emptyDB with skills := [skillRow1], challenges := [challengeDone] }

/-! ### Claim C1 — the two schedulers -/

/-- C1: `_calculate_next_review` maps understanding 1,2,3,4,5 to now plus
1,3,7,14,30 days and any other integer to now plus 7 days;
`_calculate_next_review_for_item` returns now plus 4 hours whenever
`was_correct` is false, regardless of confidence, and otherwise the same day
table keyed by confidence with the 7-day default. -/
theorem claim_C1 (now : Int) :
    (calculate_next_review now 1 = now + 1 * secondsPerDay ∧
     calculate_next_review now 2 = now + 3 * secondsPerDay ∧
     calculate_next_review now 3 = now + 7 * secondsPerDay ∧
     calculate_next_review now 4 = now + 14 * secondsPerDay ∧
     calculate_next_review now 5 = now + 30 * secondsPerDay) ∧
    (∀ u : Int, u ≠ 1 → u ≠ 2 → u ≠ 3 → u ≠ 4 → u ≠ 5 →
      calculate_next_review now u = now + 7 * secondsPerDay) ∧
    (∀ conf : Int, calculate_next_review_for_item now false conf =
      now + 4 * secondsPerHour) ∧
    (calculate_next_review_for_item now true 1 = now + 1 * secondsPerDay ∧
     calculate_next_review_for_item now true 2 = now + 3 * secondsPerDay ∧
     calculate_next_review_for_item now true 3 = now + 7 * secondsPerDay ∧
     calculate_next_review_for_item now true 4 = now + 14 * secondsPerDay ∧
     calculate_next_review_for_item now true 5 = now + 30 * secondsPerDay) ∧
    (∀ conf : Int, conf ≠ 1 → conf ≠ 2 → conf ≠ 3 → conf ≠ 4 → conf ≠ 5 →
      calculate_next_review_for_item now true conf = now + 7 * secondsPerDay) := by
  refine ⟨⟨?_, ?_, ?_, ?_, ?_⟩, ?_, ?_, ⟨?_, ?_, ?_, ?_, ?_⟩, ?_⟩
  all_goals first
  | (intro u h1 h2 h3 h4 h5
     simp [calculate_next_review, calculate_next_review_for_item, h1, h2, h3, h4, h5])
  | (intro conf
     simp [calculate_next_review_for_item])
  | simp [calculate_next_review, calculate_next_review_for_item]

/-- C1 witness: the default rows of both tables and the incorrect-answer rule
at concrete inputs. -/
theorem claim_C1_witness :
    calculate_next_review 0 0 = 0 + 7 * secondsPerDay ∧
    calculate_next_review_for_item 0 false 5 = 0 + 4 * secondsPerHour ∧
    calculate_next_review_for_item 0 true 7 = 0 + 7 * secondsPerDay :=
  ⟨(claim_C1 0).2.1 0 (by decide) (by decide) (by decide) (by decide) (by decide),
   (claim_C1 0).2.2.1 5,
   (claim_C1 0).2.2.2.2 7 (by decide) (by decide) (by decide) (by decide) (by decide)⟩

/-! ### Claim C10 — complete_challenge on a nonexistent id -/

/-- C10: `complete_challenge` returns `True` in every path; when the id does
not resolve it writes nothing, so the boolean result does not distinguish a
real completion from a nonexistent id. -/
theorem claim_C10 (db : DB) (now : Int) (challenge_id : Nat)
    (gh fn : Option String) :
    (complete_challenge db now challenge_id gh fn).2 = true ∧
    ((∀ c ∈ db.challenges, c.id ≠ challenge_id) →
      (complete_challenge db now challenge_id gh fn).1 = db) := by
  constructor
  · rfl
  · intro hne
    unfold complete_challenge
    have hmap : db.challenges.map (fun c =>
        if c.id = challenge_id then
          { c with status := "completed", completed_at := some now, progress_percent := 100,
                   github_link := if truthy gh then gh else c.github_link,
                   notes :=
                     if truthy fn then
                       some ((match c.notes with
                              | some n => n ++ "\n\n"
                              | none => "") ++ "Final notes: " ++ fn.getD "")
                     else c.notes }
        else c) = db.challenges := by
      rw [List.map_congr_left (g := id) (fun c hc => by simp [hne c hc])]
      exact List.map_id _
    have hfind : ∀ l : List ChallengeRow, (∀ c ∈ l, c.id ≠ challenge_id) →
        l.find? (fun c => c.id = challenge_id) = none := by
      intro l hl
      exact List.find?_eq_none.mpr (fun c hc => by simp [hl c hc])
    simp only [DB.findChallenge, hmap]
    rw [hfind db.challenges hne]
    simp

/-- C10 witness: a database whose only challenge has id 1; completing id 2
returns `True` and leaves the database unchanged. -/
theorem claim_C10_witness :
    (complete_challenge dbCompleted 7 2 none none).2 = true ∧
    (complete_challenge dbCompleted 7 2 none none).1 = dbCompleted :=
  ⟨(claim_C10 dbCompleted 7 2 none none).1,
   (claim_C10 dbCompleted 7 2 none none).2 (by decide)⟩

/-! ### Claim C4 — status state machines -/

/-- C4 counterexample: a database whose only challenge is `completed`; one
call to `start_challenge` moves it back to `in_progress`, so completed is
not a terminal status and the claimed one-directional transition system does
not hold. -/
theorem claim_C4_counterexample :
    dbCompleted.challenges.map (fun c => c.status) = ["completed"] ∧
    (start_challenge dbCompleted 5 1).1.challenges.map (fun c => c.status) =
      ["in_progress"] := by
  constructor <;> rfl

/-- C4 amended: none of the four operations guards the current status.
`start_challenge` sets any matching challenge to `in_progress` (also from
completed or abandoned), `update_challenge_progress` never changes a status,
`complete_challenge` sets any matching challenge to `completed`, and
`solve_obstacle` sets any matching obstacle to `solved` (also from
workaround); no operation moves an obstacle back to `blocking`. -/
theorem claim_C4_amended (db : DB) (now : Int) (id : Nat) (pct mins : Int)
    (gh fn : Option String) (sol : String) :
    ((start_challenge db now id).1.challenges.map (fun c => c.status) =
      db.challenges.map (fun c => if c.id = id then "in_progress" else c.status)) ∧
    ((update_challenge_progress db id pct mins none).1.challenges.map
        (fun c => c.status) = db.challenges.map (fun c => c.status)) ∧
    ((complete_challenge db now id gh fn).1.challenges.map (fun c => c.status) =
      db.challenges.map (fun c => if c.id = id then "completed" else c.status)) ∧
    ((solve_obstacle db now id sol none none none).1.obstacles.map
        (fun o => o.status) =
      db.obstacles.map (fun o => if o.id = id then "solved" else o.status)) := by
  refine ⟨?_, ?_, ?_, ?_⟩
  · unfold start_challenge
    simp only [List.map_map]
    apply List.map_congr_left
    intro c _
    by_cases hc : c.id = id <;> simp [hc]
  · unfold update_challenge_progress
    split
    · rfl
    · simp only [List.map_map]
      apply List.map_congr_left
      intro c _
      by_cases hc : c.id = id <;> simp [hc]
  · unfold complete_challenge
    simp only [List.map_map]
    apply List.map_congr_left
    intro c _
    by_cases hc : c.id = id <;> simp [hc]
  · unfold solve_obstacle
    simp only [List.map_map]
    apply List.map_congr_left
    intro o _
    by_cases ho : o.id = id <;> simp [ho]

/-! ### Claim C7 — log_session -/

/-- C7 counterexample: skill id 1 exists, yet `log_session` with
understanding_level 6 raises (the sessions-table `CHECK` constraint) and
inserts nothing, so "for every existing skill_id it inserts one Session row"
fails as universally stated. -/
theorem claim_C7_counterexample :
    dbSkill.findSkill 1 = some skillRow1 ∧
    log_session dbSkill 0 1 30 "t" 6 none none = .error .checkViolation := by
  constructor <;> rfl

/-- C7 amended: for a skill_id that does not resolve, `log_session` fails
with the NotFound-style `ValueError` before any write; for an existing
skill_id and an understanding_level within the table's `CHECK` range 1..5 it
appends exactly one session row, adds the duration to the skill's
`total_time_minutes`, sets `last_reviewed` to now and `next_review` via the
session scheduler. -/
theorem claim_C7_amended (db : DB) (now : Int) (skill_id : Nat) (dur : Int)
    (topics : String) (u : Int) (notes tk : Option String) :
    (db.findSkill skill_id = none →
      log_session db now skill_id dur topics u notes tk = .error .notFound) ∧
    (∀ s, db.findSkill skill_id = some s → 1 ≤ u → u ≤ 5 →
      log_session db now skill_id dur topics u notes tk =
        .ok ({ db with
                sessions := db.sessions ++
                  [{ id := nextId (db.sessions.map (fun t => t.id)),
                     skill_id := skill_id, session_date := now,
                     duration_minutes := dur, topics_covered := topics,
                     understanding_level := u, notes := notes, key_takeaways := tk }],
                skills := db.skills.map (fun t =>
                  if t.id = skill_id then
                    { t with last_reviewed := some now,
                             next_review := some (calculate_next_review now u),
                             total_time_minutes := t.total_time_minutes + dur }
                  else t) },
              nextId (db.sessions.map (fun t => t.id)))) := by
  constructor
  · intro hnone
    unfold log_session
    rw [hnone]
  · intro s hs h1 h5
    unfold log_session
    rw [hs]
    simp [h1, h5]

/-- C7 witness: a successful `log_session` on the one-skill database. -/
theorem claim_C7_witness :
    dbSkill.findSkill 1 = some skillRow1 ∧ (1 : Int) ≤ 3 ∧ (3 : Int) ≤ 5 ∧
    (log_session dbSkill 100 1 30 "t" 3 none none).isOk = true := by
  refine ⟨rfl, by norm_num, by norm_num, ?_⟩
  rw [(claim_C7_amended dbSkill 100 1 30 "t" 3 none none).2 skillRow1 rfl
    (by norm_num) (by norm_num)]
  rfl

/-! ### Claim C2 — out-of-range rating inputs -/

/-- C2 counterexample: item id 1 exists, and `record_review` with
`confidence_after = 6` raises the `CHECK(confidence_level BETWEEN 1 AND 5)`
constraint instead of coercing to a default, refuting "never raise". -/
theorem claim_C2_counterexample :
    dbSkillItem.findItem 1 = some itemRow1 ∧
    record_review dbSkillItem 0 1 true 3 6 none = .error .checkViolation := by
  constructor <;> rfl

/-- C2 amended: an out-of-range rating is not silently coerced — each of
`log_session` (understanding_level), `record_review` (confidence_after) and
`add_learning_item` (difficulty) raises a `CHECK`-constraint
`IntegrityError` when the referenced row exists but the rating lies outside
1..5; defaulting on bad values exists only in the schedulers' interval
lookup and the roadmap parser. -/
theorem claim_C2_amended (db : DB) (now : Int) (v : Int) (hv : v < 1 ∨ 5 < v) :
    (∀ sid dur topics notes tk, (db.findSkill sid).isSome = true →
      log_session db now sid dur topics v notes tk = .error .checkViolation) ∧
    (∀ iid wc cb tts, (db.findItem iid).isSome = true →
      record_review db now iid wc cb v tts = .error .checkViolation) ∧
    (∀ sid ans q ty tags src, (db.findSkill sid).isSome = true →
      add_learning_item db now sid ans q ty v tags src = .error .checkViolation) := by
  refine ⟨?_, ?_, ?_⟩
  · intro sid dur topics notes tk hsk
    obtain ⟨s, hs⟩ := Option.isSome_iff_exists.mp hsk
    unfold log_session
    rw [hs]
    have : ¬(1 ≤ v ∧ v ≤ 5) := by omega
    simp [this]
  · intro iid wc cb tts hit
    obtain ⟨it, hit'⟩ := Option.isSome_iff_exists.mp hit
    unfold record_review
    rw [hit']
    have : ¬(1 ≤ v ∧ v ≤ 5) := by omega
    simp [this]
  · intro sid ans q ty tags src hsk
    obtain ⟨s, hs⟩ := Option.isSome_iff_exists.mp hsk
    unfold add_learning_item
    rw [hs]
    have : ¬(1 ≤ v ∧ v ≤ 5) := by omega
    simp [this]

/-- C2 witness: value 6 on the concrete one-skill one-item database makes
all three operations raise. -/
theorem claim_C2_witness :
    log_session dbSkillItem 0 1 30 "t" 6 none none = .error .checkViolation ∧
    record_review dbSkillItem 0 1 false 2 6 none = .error .checkViolation ∧
    add_learning_item dbSkillItem 0 1 "a" none "concept" 6 none none =
      .error .checkViolation := by
  have h := claim_C2_amended dbSkillItem 0 6 (by norm_num)
  exact ⟨h.1 1 30 "t" none none rfl, h.2.1 1 false 2 none rfl,
    h.2.2 1 "a" none "concept" none none rfl⟩

/-! ### Claim C5 — daily streak upsert and current streak -/

theorem not_mem_streakDatesDesc {db : DB} {today : Int}
    (h : ∀ r ∈ db.streaks, r.date ≠ today) : today ∉ streakDatesDesc db := by
  intro hmem
  unfold streakDatesDesc at hmem
  rw [(List.perm_insertionSort dateDescRel _).mem_iff] at hmem
  obtain ⟨r, hr, hrd⟩ := List.mem_map.mp hmem
  exact h r (List.mem_of_mem_filter hr) hrd

theorem currentStreak_zero_of_no_today {db : DB} {today : Int}
    (h : ∀ r ∈ db.streaks, r.date ≠ today) :
    (get_streak_stats db today).current_streak = 0 := by
  have hnm := not_mem_streakDatesDesc h
  unfold get_streak_stats
  by_cases hd : streakDatesDesc db = []
  · simp [hd]
  · simp only [hd, if_neg hd]
    cases hds : streakDatesDesc db with
    | nil => rfl
    | cons d ds =>
      have hdne : d ≠ today := by
        intro he
        exact hnm (hds ▸ he ▸ List.mem_cons_self d ds)
      simp [currentStreakWalk, hdne]

theorem currentStreakWalk_mem : ∀ (dates : List Int) (check : Int) (k : Nat),
    k < currentStreakWalk dates check → (check - k) ∈ dates := by
  intro dates
  induction dates with
  | nil =>
    intro check k hk
    simp [currentStreakWalk] at hk
  | cons d ds ih =>
    intro check k hk
    rw [currentStreakWalk] at hk
    by_cases hd : d = check
    · rw [if_pos hd] at hk
      cases k with
      | zero =>
        simp only [Nat.cast_zero, sub_zero]
        rw [← hd]
        exact List.mem_cons_self d ds
      | succ j =>
        have hj : j < currentStreakWalk ds (check - 1) := by omega
        have hmem := ih (check - 1) j hj
        have heq : check - ((j + 1 : Nat) : Int) = check - 1 - (j : Int) := by
          push_cast
          ring
        rw [heq]
        exact List.mem_cons_of_mem _ hmem
    · rw [if_neg hd] at hk
      omega

theorem currentStreakWalk_not_mem : ∀ (dates : List Int) (check : Int),
    List.Sorted dateDescRel dates → dates.Nodup → (∀ d ∈ dates, d ≤ check) →
    (check - (currentStreakWalk dates check : Int)) ∉ dates := by
  intro dates
  induction dates with
  | nil =>
    intro check _ _ _
    simp
  | cons d ds ih =>
    intro check hs hnd hle
    have hcons := List.sorted_cons.mp hs
    have hndc := List.nodup_cons.mp hnd
    rw [currentStreakWalk]
    by_cases hd : d = check
    · rw [if_pos hd]
      intro hmem
      rcases List.mem_cons.mp hmem with heq | hmem'
      · rw [hd] at heq
        omega
      · have hle' : ∀ x ∈ ds, x ≤ check - 1 := by
          intro x hx
          have h1 : x ≤ d := hcons.1 x hx
          have h2 : x ≠ d := fun he => hndc.1 (he ▸ hx)
          omega
        refine ih (check - 1) hcons.2 hndc.2 hle' ?_
        have heq2 : check - ((1 + currentStreakWalk ds (check - 1) : Nat) : Int) =
            check - 1 - (currentStreakWalk ds (check - 1) : Int) := by
          push_cast
          ring
        exact heq2 ▸ hmem'
    · rw [if_neg hd]
      intro hmem
      simp only [Nat.cast_zero, sub_zero] at hmem
      rcases List.mem_cons.mp hmem with heq | hmem'
      · exact hd heq.symm
      · have h1 : check ≤ d := hcons.1 check hmem'
        have h2 : d ≤ check := hle d (List.mem_cons_self d ds)
        exact hd (by omega)

theorem currentStreakWalk_char (dates : List Int) (check : Int)
    (hs : List.Sorted dateDescRel dates) (hnd : dates.Nodup)
    (hle : ∀ d ∈ dates, d ≤ check) (n : Nat) :
    currentStreakWalk dates check = n ↔
      ((∀ k : Nat, k < n → (check - k) ∈ dates) ∧ (check - (n : Int)) ∉ dates) := by
  constructor
  · rintro rfl
    exact ⟨fun k hk => currentStreakWalk_mem dates check k hk,
      currentStreakWalk_not_mem dates check hs hnd hle⟩
  · rintro ⟨h1, h2⟩
    by_contra hne
    rcases Nat.lt_or_ge (currentStreakWalk dates check) n with hlt | hge
    · exact currentStreakWalk_not_mem dates check hs hnd hle
        (h1 (currentStreakWalk dates check) hlt)
    · exact h2 (currentStreakWalk_mem dates check n
        (lt_of_le_of_ne hge (fun he => hne he.symm)))

theorem mem_streakDatesDesc (db : DB) (x : Int) :
    x ∈ streakDatesDesc db ↔
      ∃ r ∈ db.streaks, r.maintained_streak = true ∧ r.date = x := by
  unfold streakDatesDesc
  rw [(List.perm_insertionSort dateDescRel _).mem_iff]
  simp only [List.mem_map, List.mem_filter]
  constructor
  · rintro ⟨r, ⟨hr, hm⟩, rfl⟩
    exact ⟨r, hr, hm, rfl⟩
  · rintro ⟨r, hr, hm, rfl⟩
    exact ⟨r, ⟨hr, hm⟩, rfl⟩

theorem get_streak_stats_current (db : DB) (today : Int) :
    (get_streak_stats db today).current_streak =
      currentStreakWalk (streakDatesDesc db) today := by
  by_cases hd : streakDatesDesc db = []
  · simp [get_streak_stats, hd, currentStreakWalk]
  · simp [get_streak_stats, hd]

/-- C5: `log_daily_streak` upserts keyed by today's date — starting from a
state with no row for today, a first call inserts one row and a second call
on the same date accumulates minutes and both obstacle counters into that
row, leaving the total row count at one more than before; and
`get_streak_stats` returns `current_streak` as the count of consecutive
calendar days with (maintained) rows walking backward from today: for any
database whose dates are pairwise distinct (the schema's `UNIQUE` column)
and not in the future, the streak equals `n` exactly when the days
`today, today - 1, …, today - (n-1)` all have rows and `today - n` has
none — in particular it is 0 whenever today has no row. -/
theorem claim_C5 (db : DB) (today : Int) (m1 m2 e1 s1 e2 s2 : Int)
    (n1 n2 : Option String) (h : ∀ r ∈ db.streaks, r.date ≠ today) :
    ∃ db1 db2,
      log_daily_streak db today m1 none e1 s1 n1 = .ok db1 ∧
      log_daily_streak db1 today m2 none e2 s2 n2 = .ok db2 ∧
      db2.streaks.length = db.streaks.length + 1 ∧
      (db2.streaks.filter (fun r => r.date = today)).map
        (fun r => (r.minutes_worked, r.obstacles_encountered, r.obstacles_solved)) =
        [(m1 + m2, e1 + e2, s1 + s2)] ∧
      (get_streak_stats db today).current_streak = 0 ∧
      (∀ (dbx : DB) (n : Nat),
        (dbx.streaks.map (fun r => r.date)).Nodup →
        (∀ r ∈ dbx.streaks, r.maintained_streak = true → r.date ≤ today) →
        ((get_streak_stats dbx today).current_streak = n ↔
          (∀ k : Nat, k < n →
            ∃ r ∈ dbx.streaks, r.maintained_streak = true ∧ r.date = today - k) ∧
          ¬∃ r ∈ dbx.streaks, r.maintained_streak = true ∧
            r.date = today - (n : Int))) := by
  have hany : db.streaks.any (fun r => r.date = today) = false := by
    rw [List.any_eq_false]
    intro r hr
    simp [h r hr]
  refine ⟨{ db with streaks := db.streaks ++
      [{ date := today, minutes_worked := m1, challenge_worked_on := none,
         obstacles_encountered := e1, obstacles_solved := s1,
         maintained_streak := true, notes := n1 : StreakRow }] },
    { db with streaks := (db.streaks ++
      [{ date := today, minutes_worked := m1, challenge_worked_on := none,
         obstacles_encountered := e1, obstacles_solved := s1,
         maintained_streak := true, notes := n1 : StreakRow }]).map (fun (r : StreakRow) =>
        if r.date = today then
          { r with minutes_worked := r.minutes_worked + m2,
                   obstacles_encountered := r.obstacles_encountered + e2,
                   obstacles_solved := r.obstacles_solved + s2,
                   notes := some ((match r.notes with
                                   | some n => n ++ "\n"
                                   | none => "") ++ n2.getD "") }
        else r) },
    ?_, ?_, ?_, ?_, currentStreak_zero_of_no_today h, ?_⟩
  · unfold log_daily_streak
    rw [hany]
    simp
  · unfold log_daily_streak
    rw [show (db.streaks ++
        [{ date := today, minutes_worked := m1, challenge_worked_on := none,
           obstacles_encountered := e1, obstacles_solved := s1,
           maintained_streak := true, notes := n1 : StreakRow }]).any
        (fun r => r.date = today) = true from by simp]
    rfl
  · simp
  · have hdate : ∀ (f : StreakRow → StreakRow), (∀ r, (f r).date = r.date) →
        ∀ l : List StreakRow, (∀ r ∈ l, r.date ≠ today) →
          (l.map f).filter (fun r => r.date = today) = [] := by
      intro f hf l hl
      rw [List.filter_eq_nil_iff]
      intro a ha
      obtain ⟨r, hr, rfl⟩ := List.mem_map.mp ha
      simp [hf r, hl r hr]
    rw [List.map_append, List.filter_append,
      hdate _ (fun r => by by_cases hrr : r.date = today <;> simp [hrr]) db.streaks h]
    simp
  · intro dbx n hnodup hle
    have hsorted : List.Sorted dateDescRel (streakDatesDesc dbx) := by
      unfold streakDatesDesc
      exact List.sorted_insertionSort _ _
    have hnd : (streakDatesDesc dbx).Nodup := by
      unfold streakDatesDesc
      rw [List.Perm.nodup_iff (List.perm_insertionSort _ _)]
      exact List.Nodup.sublist (List.Sublist.map _ (List.filter_sublist _)) hnodup
    have hle' : ∀ d ∈ streakDatesDesc dbx, d ≤ today := by
      intro d hd
      obtain ⟨r, hr, hrm, hrd⟩ := (mem_streakDatesDesc dbx d).mp hd
      exact hrd ▸ hle r hr hrm
    rw [get_streak_stats_current, currentStreakWalk_char _ _ hsorted hnd hle' n]
    simp only [mem_streakDatesDesc]

def dbStreak1 : DB := (log_daily_streak emptyDB 0 30 none 0 0 none).toOption.getD emptyDB

def dbStreak2 : DB := (log_daily_streak dbStreak1 0 20 none 0 0 none).toOption.getD emptyDB

/-- C5 witness: logging 30 then 20 minutes on day 0 from an empty database
yields one row with 50 minutes, the current streak before any logging is 0,
and the counting characterization gives a current streak of exactly 1 on
the resulting one-row database. -/
theorem claim_C5_witness :
    (∃ db1 db2,
      log_daily_streak emptyDB 0 30 none 0 0 none = .ok db1 ∧
      log_daily_streak db1 0 20 none 0 0 none = .ok db2 ∧
      db2.streaks.length = 1 ∧
      (db2.streaks.filter (fun r => r.date = 0)).map
        (fun r => (r.minutes_worked, r.obstacles_encountered, r.obstacles_solved)) =
        [((50 : Int), (0 : Int), (0 : Int))] ∧
      (get_streak_stats emptyDB 0).current_streak = 0) ∧
    (get_streak_stats dbStreak2 0).current_streak = 1 := by
  obtain ⟨db1, db2, h1, h2, h3, h4, h5, hchar⟩ :=
    claim_C5 emptyDB 0 30 20 0 0 0 0 none none (by intro r hr; simp [emptyDB] at hr)
  refine ⟨⟨db1, db2, h1, h2, ?_, ?_, h5⟩, ?_⟩
  · simpa [emptyDB] using h3
  · simpa using h4
  · exact (hchar dbStreak2 1 (by decide) (by decide)).mpr ⟨by decide, by decide⟩

/-! ### Claim C6 — items due for review -/

/-- C6: for every call — with or without a skill filter —
`get_items_due_for_review` returns only items whose `next_review` is null or
not after the call time, sorted by (`next_review` ascending with nulls
first, then `confidence_level` ascending); and when no skill filter is
given, every returned item belongs to a skill whose status is `active`. -/
theorem claim_C6 (db : DB) (skill_id : Option Nat) (limit : Nat) (now : Int) :
    (∀ it ∈ get_items_due_for_review db skill_id limit now,
      it.next_review = none ∨ ∃ t, it.next_review = some t ∧ t ≤ now) ∧
    List.Sorted itemRel (get_items_due_for_review db skill_id limit now) ∧
    (∀ it ∈ get_items_due_for_review db none limit now,
      ∃ s ∈ db.skills, s.id = it.skill_id ∧ s.status = "active") := by
  have hbranchN : ∀ sk : Option Nat, sk.getD 0 = 0 →
      get_items_due_for_review db sk limit now =
      ((db.items.filter (fun li =>
        match db.findSkill li.skill_id with
        | some s => itemDue now li && s.status = "active"
        | none => false)).insertionSort itemRel).take limit := by
    intro sk hsk
    unfold get_items_due_for_review
    rw [if_neg (fun hcon => hcon hsk)]
  have hbranchF : skill_id.getD 0 ≠ 0 →
      get_items_due_for_review db skill_id limit now =
      ((db.items.filter (fun li =>
        (db.findSkill li.skill_id).isSome && li.skill_id = skill_id.getD 0 &&
          itemDue now li)).insertionSort itemRel).take limit := by
    intro hsk
    unfold get_items_due_for_review
    rw [if_pos hsk]
  refine ⟨?_, ?_, ?_⟩
  · intro it hit
    have hdue : itemDue now it = true := by
      by_cases hsk : skill_id.getD 0 = 0
      · rw [hbranchN skill_id hsk] at hit
        have h1 := List.of_mem_filter ((List.perm_insertionSort itemRel _).mem_iff.mp
          (List.take_subset _ _ hit))
        cases hf : db.findSkill it.skill_id with
        | none => rw [hf] at h1; simp at h1
        | some s =>
          rw [hf] at h1
          simp at h1
          exact h1.1
      · rw [hbranchF hsk] at hit
        have h1 := List.of_mem_filter ((List.perm_insertionSort itemRel _).mem_iff.mp
          (List.take_subset _ _ hit))
        simp at h1
        exact h1.2
    unfold itemDue at hdue
    cases hnr : it.next_review with
    | none => exact Or.inl rfl
    | some t =>
      rw [hnr] at hdue
      simp at hdue
      exact Or.inr ⟨t, rfl, hdue⟩
  · by_cases hsk : skill_id.getD 0 = 0
    · rw [hbranchN skill_id hsk]
      exact ((List.sorted_insertionSort itemRel _).sublist (List.take_sublist _ _))
    · rw [hbranchF hsk]
      exact ((List.sorted_insertionSort itemRel _).sublist (List.take_sublist _ _))
  · intro it hit
    rw [hbranchN none rfl] at hit
    have h1 := List.of_mem_filter ((List.perm_insertionSort itemRel _).mem_iff.mp
      (List.take_subset _ _ hit))
    cases hf : db.findSkill it.skill_id with
    | none => rw [hf] at h1; simp at h1
    | some s =>
      rw [hf] at h1
      simp at h1
      refine ⟨s, List.mem_of_find?_eq_some hf, ?_, h1.2⟩
      have := List.find?_some hf
      simpa using this

/-- C6 witness: on the one-skill one-item database at time 100 the stored
item (next_review 50) is returned by both the unfiltered and the
skill-filtered call; the theorem yields its dueness and the sortedness of
the filtered result. -/
theorem claim_C6_witness :
    itemRow1 ∈ get_items_due_for_review dbSkillItem none 10 100 ∧
    itemRow1 ∈ get_items_due_for_review dbSkillItem (some 1) 10 100 ∧
    (itemRow1.next_review = none ∨ ∃ t, itemRow1.next_review = some t ∧ t ≤ 100) ∧
    List.Sorted itemRel (get_items_due_for_review dbSkillItem (some 1) 10 100) := by
  have hm : itemRow1 ∈ get_items_due_for_review dbSkillItem none 10 100 := by decide
  have hm2 : itemRow1 ∈ get_items_due_for_review dbSkillItem (some 1) 10 100 := by decide
  exact ⟨hm, hm2, (claim_C6 dbSkillItem none 10 100).1 itemRow1 hm,
    (claim_C6 dbSkillItem (some 1) 10 100).2.1⟩

/-! ### Claim C3 — the roadmap parser -/

/-- The only `continue` conditions of the per-block loop: a block whose first
line does not match, or whose cleaned title is empty or shorter than three
characters. -/
def validTitleBlock (b : List Char) : Bool :=
  match firstLineTitle b with
  | none => false
  | some line =>
    let t := cleanText line
    ¬(t.isEmpty ∨ t.length < 3)

theorem parseBlock_isSome (b : List Char) :
    (parseBlock b).isSome = validTitleBlock b := by
  unfold parseBlock validTitleBlock
  cases firstLineTitle b with
  | none => rfl
  | some line =>
    simp only [List.isEmpty_iff]
    by_cases hc : cleanText line = [] ∨ (cleanText line).length < 3 <;> simp [hc]

theorem length_filterMap_parseBlock (l : List (List Char)) :
    (l.filterMap parseBlock).length = (l.filter validTitleBlock).length := by
  induction l with
  | nil => rfl
  | cons b bs ih =>
    rw [List.filterMap_cons, List.filter_cons]
    have hiff := parseBlock_isSome b
    cases hpb : parseBlock b with
    | none =>
      rw [hpb] at hiff
      simp at hiff
      simp [hiff, ih]
    | some d =>
      rw [hpb] at hiff
      simp at hiff
      simp [hiff, ih]

def scenarioRoadmap : String :=
  "CHALLENGE: Alpha One\nDIFFICULTY: beginner\nHOURS: 4\nDESCRIPTION: Build X\nSKILLS: a, b\nPREREQUISITES: none\nCHALLENGE: Beta Two\nDIFFICULTY: advanced\nHOURS: 6\nDESCRIPTION: Build Y\nSKILLS: c\nPREREQUISITES: Alpha One\nCHALLENGE: Gamma Tri\nDIFFICULTY: SuperHard\nSKILLS: d\n"

set_option maxRecDepth 40000 in
/-- C3: the parser is total and skips exactly the blocks whose cleaned title
is missing, empty or under three characters (field extraction in the model
never raises, matching the guarded `except` per block); and on a text with
two well-formed blocks plus one malformed block (no DESCRIPTION, difficulty
"SuperHard", no HOURS) it yields exactly three drafts, the malformed one
defaulting to difficulty "intermediate", description equal to its own title
and five hours, and inserting them creates exactly three challenge rows. -/
theorem claim_C3 (text : String) :
    ((parse_challenges text).length =
      (((split_challenge_blocks text.data).drop 1).filter validTitleBlock).length) ∧
    parse_challenges scenarioRoadmap =
      [{ title := "Alpha One", difficulty := "beginner", estimated_hours := 4,
         description := "Build X", skills_taught := ["a", "b"], prerequisites := [] },
       { title := "Beta Two", difficulty := "advanced", estimated_hours := 6,
         description := "Build Y", skills_taught := ["c"], prerequisites := [] },
       { title := "Gamma Tri", difficulty := "intermediate", estimated_hours := 5,
         description := "Gamma Tri", skills_taught := ["d"], prerequisites := [] }] ∧
    (parse_and_create_challenges dbSkill 0 scenarioRoadmap 1).2 = 3 := by
  refine ⟨length_filterMap_parseBlock _, by decide, by decide⟩

/-! ### Claim C9 — JSON round trip of the list-valued columns -/

theorem hexVal_hexDigitChar : ∀ d : Nat, d < 16 → hexVal (hexDigitChar d) = some d := by
  decide

theorem hexVal4_hex4 (n : Nat) (hn : n < 65536) :
    hexVal4 (hexDigitChar (n / 4096 % 16)) (hexDigitChar (n / 256 % 16))
      (hexDigitChar (n / 16 % 16)) (hexDigitChar (n % 16)) = some n := by
  unfold hexVal4
  rw [hexVal_hexDigitChar _ (by omega), hexVal_hexDigitChar _ (by omega),
    hexVal_hexDigitChar _ (by omega), hexVal_hexDigitChar _ (by omega)]
  simp
  omega

theorem char_valid_range (c : Char) :
    c.toNat < 55296 ∨ (57343 < c.toNat ∧ c.toNat < 1114112) := by
  rcases c.valid with h | h
  · exact Or.inl h
  · exact Or.inr h

theorem escapeChar_cases (c : Char) :
    (escapeChar c = [c] ∧ 32 ≤ c.toNat ∧ c ≠ '"' ∧ c ≠ '\\') ∨
    (∃ e, escapeChar c = ['\\', e] ∧ e ≠ 'u' ∧ unescapeSimple e = some c) ∨
    (escapeChar c = '\\' :: 'u' :: hex4 c.toNat ∧ c.toNat < 65536 ∧
      ¬(55296 ≤ c.toNat ∧ c.toNat ≤ 56319) ∧ ¬(56320 ≤ c.toNat ∧ c.toNat ≤ 57343)) ∨
    (escapeChar c =
        ('\\' :: 'u' :: hex4 (55296 + (c.toNat - 65536) / 1024)) ++
        ('\\' :: 'u' :: hex4 (56320 + (c.toNat - 65536) % 1024)) ∧
      65536 ≤ c.toNat ∧ c.toNat < 1114112) := by
  have hv := char_valid_range c
  by_cases h1 : c = '"'
  · subst h1
    exact Or.inr (Or.inl ⟨'"', rfl, by decide, rfl⟩)
  by_cases h2 : c = '\\'
  · subst h2
    exact Or.inr (Or.inl ⟨'\\', rfl, by decide, rfl⟩)
  by_cases h3 : c = '\n'
  · subst h3
    exact Or.inr (Or.inl ⟨'n', by unfold escapeChar; rw [if_neg h1, if_neg h2, if_pos rfl],
      by decide, rfl⟩)
  by_cases h4 : c = '\r'
  · subst h4
    exact Or.inr (Or.inl ⟨'r',
      by unfold escapeChar; rw [if_neg h1, if_neg h2, if_neg h3, if_pos rfl],
      by decide, rfl⟩)
  by_cases h5 : c = '\t'
  · subst h5
    exact Or.inr (Or.inl ⟨'t',
      by unfold escapeChar; rw [if_neg h1, if_neg h2, if_neg h3, if_neg h4, if_pos rfl],
      by decide, rfl⟩)
  by_cases h6 : c.toNat = 8
  · have hc : Char.ofNat 8 = c := by rw [← h6, Char.ofNat_toNat]
    refine Or.inr (Or.inl ⟨'b',
      by unfold escapeChar; rw [if_neg h1, if_neg h2, if_neg h3, if_neg h4, if_neg h5,
        if_pos h6], by decide, ?_⟩)
    simp [unescapeSimple]
    exact hc
  by_cases h7 : c.toNat = 12
  · have hc : Char.ofNat 12 = c := by rw [← h7, Char.ofNat_toNat]
    refine Or.inr (Or.inl ⟨'f',
      by unfold escapeChar; rw [if_neg h1, if_neg h2, if_neg h3, if_neg h4, if_neg h5,
        if_neg h6, if_pos h7], by decide, ?_⟩)
    simp [unescapeSimple]
    exact hc
  by_cases h8 : 32 ≤ c.toNat ∧ c.toNat ≤ 126
  · exact Or.inl ⟨by unfold escapeChar; rw [if_neg h1, if_neg h2, if_neg h3, if_neg h4,
      if_neg h5, if_neg h6, if_neg h7, if_pos h8], h8.1, h1, h2⟩
  by_cases h9 : c.toNat < 65536
  · exact Or.inr (Or.inr (Or.inl ⟨by unfold escapeChar; rw [if_neg h1, if_neg h2, if_neg h3,
      if_neg h4, if_neg h5, if_neg h6, if_neg h7, if_neg h8, if_pos h9],
      h9, by omega, by omega⟩))
  · exact Or.inr (Or.inr (Or.inr ⟨by unfold escapeChar; rw [if_neg h1, if_neg h2, if_neg h3,
      if_neg h4, if_neg h5, if_neg h6, if_neg h7, if_neg h8, if_neg h9],
      by omega, by omega⟩))

theorem readGroup_raw (c : Char) (h32 : 32 ≤ c.toNat) (hq : c ≠ '"') (hb : c ≠ '\\')
    (l : List Char) : readGroup (c :: l) = some (c, l) := by
  rw [readGroup.eq_def]
  simp [hb, h32, hq]

theorem readGroup_simple (e uc : Char) (hu : e ≠ 'u') (h : unescapeSimple e = some uc)
    (l : List Char) : readGroup ('\\' :: e :: l) = some (uc, l) := by
  rw [readGroup.eq_def]
  simp [hu, h]

theorem readGroup_u (a b d3 d4 : Char) (n : Nat) (hv4 : hexVal4 a b d3 d4 = some n)
    (hno : ¬(55296 ≤ n ∧ n ≤ 56319)) (hno2 : ¬(56320 ≤ n ∧ n ≤ 57343)) (l : List Char) :
    readGroup ('\\' :: 'u' :: a :: b :: d3 :: d4 :: l) = some (Char.ofNat n, l) := by
  rw [readGroup.eq_def]
  simp [hv4, hno, hno2]

theorem readGroup_surr (a b d3 d4 a2 b2 c2 d2 : Char) (n m : Nat)
    (hv4 : hexVal4 a b d3 d4 = some n) (hhi : 55296 ≤ n ∧ n ≤ 56319)
    (hv42 : hexVal4 a2 b2 c2 d2 = some m) (hlo : 56320 ≤ m ∧ m ≤ 57343) (l : List Char) :
    readGroup ('\\' :: 'u' :: a :: b :: d3 :: d4 :: '\\' :: 'u' :: a2 :: b2 :: c2 :: d2 :: l) =
      some (Char.ofNat (65536 + (n - 55296) * 1024 + (m - 56320)), l) := by
  rw [readGroup.eq_def]
  simp [hv4, hhi, hv42, hlo]

theorem readGroup_escape (c : Char) (l : List Char) :
    readGroup (escapeChar c ++ l) = some (c, l) := by
  rcases escapeChar_cases c with ⟨he, h32, hq, hb⟩ | ⟨e, he, hu, hus⟩ |
    ⟨he, hlt, hno, hno2⟩ | ⟨he, hge, hlt⟩
  · rw [he, List.cons_append, List.nil_append, readGroup_raw c h32 hq hb]
  · rw [he, List.cons_append, List.cons_append, List.nil_append,
      readGroup_simple e c hu hus]
  · rw [he]
    simp only [hex4, List.cons_append, List.nil_append]
    rw [readGroup_u _ _ _ _ _ (hexVal4_hex4 c.toNat hlt) hno hno2, Char.ofNat_toNat]
  · rw [he]
    simp only [hex4, List.cons_append, List.nil_append, List.append_assoc]
    rw [readGroup_surr _ _ _ _ _ _ _ _ _ _
      (hexVal4_hex4 _ (by omega : 55296 + (c.toNat - 65536) / 1024 < 65536)) (by omega)
      (hexVal4_hex4 _ (by omega : 56320 + (c.toNat - 65536) % 1024 < 65536)) (by omega)]
    have harg : 65536 + (55296 + (c.toNat - 65536) / 1024 - 55296) * 1024 +
        (56320 + (c.toNat - 65536) % 1024 - 56320) = c.toNat := by omega
    rw [harg, Char.ofNat_toNat]

theorem escapeChar_cons (c : Char) : ∃ d t, escapeChar c = d :: t := by
  unfold escapeChar
  split_ifs <;> simp [hex4]

theorem decodeEsc_escape (fuel : Nat) (c : Char) (l : List Char) :
    decodeEsc (fuel + 1) (escapeChar c ++ l) = (decodeEsc fuel l).map (fun s => c :: s) := by
  have hrg := readGroup_escape c l
  obtain ⟨d, t, hd⟩ := escapeChar_cons c
  rw [hd, List.cons_append] at hrg ⊢
  rw [decodeEsc.eq_def]
  simp [hrg]

theorem decodeEsc_flatten (fuel : Nat) (cs : List Char) (h : cs.length < fuel) :
    decodeEsc fuel ((cs.map escapeChar).flatten) = some cs := by
  induction cs generalizing fuel with
  | nil => cases fuel <;> rfl
  | cons c cs ih =>
    cases fuel with
    | zero => omega
    | succ fuel =>
      rw [List.map_cons, List.flatten_cons, decodeEsc_escape,
        ih fuel (by simp at h; omega)]
      rfl

theorem length_le_flatten_escape (cs : List Char) :
    cs.length ≤ ((cs.map escapeChar).flatten).length := by
  induction cs with
  | nil => simp
  | cons c cs ih =>
    obtain ⟨d, t, hd⟩ := escapeChar_cons c
    simp only [List.map_cons, List.flatten_cons, List.length_append, List.length_cons, hd]
    omega

theorem hexDigitChar_ne : ∀ d : Nat, d < 16 →
    hexDigitChar d ≠ '"' ∧ hexDigitChar d ≠ '\\' := by
  decide

theorem splitAtClose_raw (c : Char) (hq : c ≠ '"') (hb : c ≠ '\\') (l : List Char) :
    splitAtClose (c :: l) = (splitAtClose l).map (fun p => (c :: p.1, p.2)) := by
  rw [splitAtClose.eq_def]
  simp [hq, hb]

theorem splitAtClose_esc (x : Char) (l : List Char) :
    splitAtClose ('\\' :: x :: l) =
      (splitAtClose l).map (fun p => ('\\' :: x :: p.1, p.2)) := by
  rw [splitAtClose.eq_def]
  simp

theorem splitAtClose_hex4 (n : Nat) (hn : n < 65536) (l : List Char) :
    splitAtClose (hex4 n ++ l) = (splitAtClose l).map (fun p => (hex4 n ++ p.1, p.2)) := by
  have e1 := hexDigitChar_ne (n / 4096 % 16) (by omega)
  have e2 := hexDigitChar_ne (n / 256 % 16) (by omega)
  have e3 := hexDigitChar_ne (n / 16 % 16) (by omega)
  have e4 := hexDigitChar_ne (n % 16) (by omega)
  simp only [hex4, List.cons_append, List.nil_append]
  rw [splitAtClose_raw _ e1.1 e1.2, splitAtClose_raw _ e2.1 e2.2,
    splitAtClose_raw _ e3.1 e3.2, splitAtClose_raw _ e4.1 e4.2]
  cases splitAtClose l <;> rfl

theorem splitAtClose_escape (c : Char) (l : List Char) :
    splitAtClose (escapeChar c ++ l) =
      (splitAtClose l).map (fun p => (escapeChar c ++ p.1, p.2)) := by
  rcases escapeChar_cases c with ⟨he, h32, hq, hb⟩ | ⟨e, he, hu, hus⟩ |
    ⟨he, hlt, hno, hno2⟩ | ⟨he, hge, hlt⟩
  · rw [he, List.cons_append, List.nil_append, splitAtClose_raw c hq hb]
    cases splitAtClose l <;> exact rfl
  · rw [he, List.cons_append, List.cons_append, List.nil_append, splitAtClose_esc]
    cases splitAtClose l <;> exact rfl
  · rw [he, List.cons_append, List.cons_append, splitAtClose_esc, splitAtClose_hex4 _ hlt]
    cases splitAtClose l <;> exact rfl
  · rw [he]
    simp only [List.append_assoc, List.cons_append]
    rw [splitAtClose_esc, splitAtClose_hex4 _ (by omega), splitAtClose_esc,
      splitAtClose_hex4 _ (by omega)]
    cases splitAtClose l <;> exact rfl

theorem splitAtClose_encBody (cs : List Char) (l : List Char) :
    splitAtClose ((cs.map escapeChar).flatten ++ '"' :: l) =
      some ((cs.map escapeChar).flatten, l) := by
  induction cs with
  | nil =>
    rw [List.map_nil, List.flatten_nil, List.nil_append, splitAtClose.eq_def]
    simp
  | cons c cs ih =>
    simp only [List.map_cons, List.flatten_cons, List.append_assoc]
    rw [splitAtClose_escape, ih]
    simp

theorem parseJsonString_quote (l : List Char) :
    parseJsonString ('"' :: l) =
      (match splitAtClose l with
       | some (chunk, r) => (decodeEsc (chunk.length + 1) chunk).map (fun s => (s, r))
       | none => none) := rfl

theorem parseJsonString_encStr (cs : List Char) (l : List Char) :
    parseJsonString (encStr cs ++ l) = some (cs, l) := by
  have h1 : encStr cs ++ l = '"' :: ((cs.map escapeChar).flatten ++ '"' :: l) := by
    simp [encStr]
  rw [h1, parseJsonString_quote]
  simp only [splitAtClose_encBody]
  rw [decodeEsc_flatten _ cs (by have := length_le_flatten_escape cs; omega)]
  rfl

theorem encTail_length (xs : List (List Char)) :
    xs.length < ((xs.map (fun cs => ',' :: ' ' :: encStr cs)).flatten).length + 1 := by
  induction xs with
  | nil => simp
  | cons x xs ih =>
    simp only [List.map_cons, List.flatten_cons, List.length_append, List.length_cons]
    omega

theorem parseListRest_close (fuel : Nat) (l r : List Char) (h : skipWs l = ']' :: r) :
    parseListRest (fuel + 1) l = some ([], r) := by
  rw [parseListRest, h]
  rfl

theorem parseListRest_comma (fuel : Nat) (l r : List Char) (h : skipWs l = ',' :: r) :
    parseListRest (fuel + 1) l =
      (match parseJsonString (skipWs r) with
       | some (s, r2) =>
         match parseListRest fuel r2 with
         | some (ss, r3) => some (s :: ss, r3)
         | none => none
       | none => none) := by
  rw [parseListRest, h]
  rfl

theorem parseListRest_enc : ∀ (fuel : Nat) (xs : List (List Char)) (l : List Char),
    xs.length < fuel →
    parseListRest fuel
        ((xs.map (fun cs => ',' :: ' ' :: encStr cs)).flatten ++ ']' :: l) =
      some (xs, l) := by
  intro fuel
  induction fuel with
  | zero => intro xs l h; omega
  | succ fuel ih =>
    intro xs l h
    cases xs with
    | nil =>
      simp only [List.map_nil, List.flatten_nil, List.nil_append]
      exact parseListRest_close fuel (']' :: l) l (by simp [skipWs, isJsonWs])
    | cons x xs' =>
      simp only [List.map_cons, List.flatten_cons, List.append_assoc, List.cons_append]
      rw [parseListRest_comma fuel
        (',' :: ' ' :: (encStr x ++
          ((xs'.map (fun cs => ',' :: ' ' :: encStr cs)).flatten ++ ']' :: l)))
        (' ' :: (encStr x ++
          ((xs'.map (fun cs => ',' :: ' ' :: encStr cs)).flatten ++ ']' :: l)))
        (by simp [skipWs, isJsonWs])]
      have hws2 : skipWs (' ' :: (encStr x ++
          ((xs'.map (fun cs => ',' :: ' ' :: encStr cs)).flatten ++ ']' :: l))) =
          encStr x ++
          ((xs'.map (fun cs => ',' :: ' ' :: encStr cs)).flatten ++ ']' :: l) := by
        simp [skipWs, isJsonWs, encStr]
      rw [hws2]
      simp only [parseJsonString_encStr]
      rw [ih xs' l (by simp at h; omega)]

theorem string_mk_data (s : String) : String.mk s.data = s := rfl

theorem sepJoin_append (xs : List (List Char)) (x : List Char) (t : List Char) :
    sepJoin (x :: xs) ++ t =
      x ++ ((xs.map (fun cs => ',' :: ' ' :: cs)).flatten ++ t) := by
  induction xs generalizing x with
  | nil => simp [sepJoin]
  | cons y ys ih =>
    rw [show sepJoin (x :: y :: ys) = x ++ ',' :: ' ' :: sepJoin (y :: ys) from rfl]
    rw [List.append_assoc]
    rw [show (',' :: ' ' :: sepJoin (y :: ys)) ++ t = ',' :: ' ' :: (sepJoin (y :: ys) ++ t)
      from rfl]
    rw [ih y]
    simp

theorem skipWs_encStr (cs t : List Char) : skipWs (encStr cs ++ t) = encStr cs ++ t := by
  simp [encStr, skipWs, List.cons_append, List.dropWhile_cons, isJsonWs]

theorem json_loads_step (s : String) (X : List Char) (hd : skipWs s.data = '[' :: X) :
    json_loads s =
      (match skipWs X with
       | ']' :: r2 => if skipWs r2 = [] then some [] else none
       | r1 =>
         match parseJsonString r1 with
         | some (x, r2) =>
           match parseListRest (r2.length + 1) r2 with
           | some (xs, r3) =>
             if skipWs r3 = [] then some ((x :: xs).map (fun cs => String.mk cs)) else none
           | none => none
         | none => none) := by
  rw [json_loads.eq_def, hd]
  rfl

theorem json_loads_quote (s : String) (X cs : List Char) (hd : skipWs s.data = '[' :: X)
    (hq : skipWs X = '"' :: cs) :
    json_loads s =
      (match parseJsonString ('"' :: cs) with
       | some (x, r2) =>
         match parseListRest (r2.length + 1) r2 with
         | some (xs, r3) =>
           if skipWs r3 = [] then some ((x :: xs).map (fun c => String.mk c)) else none
         | none => none
       | none => none) := by
  rw [json_loads_step s X hd, hq]
  rfl

theorem json_loads_json_dumps (l : List String) : json_loads (json_dumps l) = some l := by
  cases l with
  | nil => rfl
  | cons s ss =>
    have hd : skipWs (json_dumps (s :: ss)).data =
        '[' :: (sepJoin ((s :: ss).map (fun t => encStr t.data)) ++ [']']) := by
      simp [json_dumps, skipWs, isJsonWs]
    have hX : sepJoin ((s :: ss).map (fun t => encStr t.data)) ++ [']'] =
        encStr s.data ++
          (((ss.map (fun t => t.data)).map (fun cs => ',' :: ' ' :: encStr cs)).flatten ++
            ']' :: []) := by
      simp only [List.map_cons]
      rw [sepJoin_append]
      simp [List.map_map, Function.comp_def]
    have hq : skipWs (sepJoin ((s :: ss).map (fun t => encStr t.data)) ++ [']']) =
        '"' :: ((s.data.map escapeChar).flatten ++ '"' ::
          (((ss.map (fun t => t.data)).map (fun cs => ',' :: ' ' :: encStr cs)).flatten ++
            ']' :: [])) := by
      rw [hX, skipWs_encStr]
      simp [encStr]
    rw [json_loads_quote _ _ _ hd hq]
    have hps : parseJsonString ('"' :: ((s.data.map escapeChar).flatten ++ '"' ::
        (((ss.map (fun t => t.data)).map (fun cs => ',' :: ' ' :: encStr cs)).flatten ++
          ']' :: []))) =
        some (s.data,
          ((ss.map (fun t => t.data)).map (fun cs => ',' :: ' ' :: encStr cs)).flatten ++
            ']' :: []) := by
      have he : encStr s.data ++
          (((ss.map (fun t => t.data)).map (fun cs => ',' :: ' ' :: encStr cs)).flatten ++
            ']' :: []) =
          '"' :: ((s.data.map escapeChar).flatten ++ '"' ::
            (((ss.map (fun t => t.data)).map (fun cs => ',' :: ' ' :: encStr cs)).flatten ++
              ']' :: [])) := by
        simp [encStr]
      rw [← he, parseJsonString_encStr]
    simp only [hps]
    have hplr : parseListRest
        ((((ss.map (fun t => t.data)).map (fun cs => ',' :: ' ' :: encStr cs)).flatten ++
          ']' :: []).length + 1)
        (((ss.map (fun t => t.data)).map (fun cs => ',' :: ' ' :: encStr cs)).flatten ++
          ']' :: []) =
        some (ss.map (fun t => t.data), []) := by
      apply parseListRest_enc
      have := encTail_length (ss.map (fun t => t.data))
      simp only [List.length_append] at *
      omega
    simp only [hplr]
    simp [skipWs, string_mk_data, Function.comp_def, List.map_id]

theorem json_dumps_ne_empty (l : List String) : json_dumps l ≠ "" := by
  intro h
  have hd := congrArg String.data h
  simp [json_dumps] at hd

theorem decodeListField_dumps (l : List String) :
    decodeListField (json_dumps l) = some l := by
  rw [decodeListField, if_neg (json_dumps_ne_empty l), json_loads_json_dumps]

theorem decodeAll_mem : ∀ (rows : List ChallengeRow) (ds : List ChallengeDict)
    (row : ChallengeRow) (d : ChallengeDict), decodeAll rows = some ds → row ∈ rows →
    decodeChallenge row = some d → d ∈ ds := by
  intro rows
  induction rows with
  | nil =>
    intro ds row d _ hm
    simp at hm
  | cons c cs ih =>
    intro ds row d h hm hd
    rw [decodeAll] at h
    rcases hc : decodeChallenge c with _ | d0 <;> rw [hc] at h
    · simp at h
    · rcases hcs : decodeAll cs with _ | ds0 <;> rw [hcs] at h
      · simp at h
      · simp only [Option.some.injEq] at h
        subst h
        rcases List.mem_cons.mp hm with hm1 | hm'
        · subst hm1
          rw [hc] at hd
          injection hd with hd
          subst hd
          exact List.mem_cons_self _ _
        · exact List.mem_cons_of_mem _ (ih ds0 row d hcs hm' hd)

/-- C9: whenever `add_challenge` succeeds with lists `skills_taught` and
`prerequisites` (and no `unlocks`), the new row is appended with the new id,
its JSON columns decode back to exactly the same lists in order (an empty
list comes back as an empty list, not as a null), and any successful
`get_all_challenges` over the resulting database contains the decoded
challenge. -/
theorem claim_C9 (db : DB) (now : Int) (title description : String) (skill_id : Nat)
    (difficulty : String) (hours : Int) (skills_taught prerequisites : List String)
    (db' : DB) (cid : Nat)
    (hadd : add_challenge db now title description skill_id difficulty hours
      skills_taught (some prerequisites) none = .ok (db', cid)) :
    ∃ row, db'.challenges = db.challenges ++ [row] ∧ row.id = cid ∧
      ∃ d, decodeChallenge row = some d ∧ d.id = cid ∧
        d.skills_taught = skills_taught ∧ d.prerequisites = prerequisites ∧
        d.unlocks = [] ∧
        ∀ ds, get_all_challenges db' none none = some ds → d ∈ ds := by
  unfold add_challenge at hadd
  by_cases h1 : (db.findSkill skill_id).isNone
  · rw [if_pos h1] at hadd
    simp at hadd
  rw [if_neg h1] at hadd
  by_cases h2 : ¬(difficulty = "beginner" ∨ difficulty = "intermediate" ∨
      difficulty = "advanced")
  · rw [if_pos h2] at hadd
    simp at hadd
  rw [if_neg h2] at hadd
  simp only [Except.ok.injEq, Prod.mk.injEq] at hadd
  obtain ⟨hdb, hcid⟩ := hadd
  subst hdb
  subst hcid
  refine ⟨_, rfl, rfl, ?_⟩
  have hdec : decodeChallenge
      { id := nextId (db.challenges.map (fun c => c.id)), title := title,
        description := description, skill_id := skill_id, difficulty := difficulty,
        estimated_hours := hours, skills_taught := json_dumps skills_taught,
        prerequisites := json_dumps prerequisites, unlocks := json_dumps [],
        status := "not_started", progress_percent := 0, time_spent := 0,
        github_link := none, notes := none, started_at := none, completed_at := none,
        created_at := now } = some
      { id := nextId (db.challenges.map (fun c => c.id)), title := title,
        description := description, skill_id := skill_id, difficulty := difficulty,
        estimated_hours := hours, skills_taught := skills_taught,
        prerequisites := prerequisites, unlocks := [], status := "not_started",
        progress_percent := 0, time_spent := 0, github_link := none, notes := none,
        started_at := none, completed_at := none, created_at := now } := by
    simp [decodeChallenge, decodeListField_dumps]
  refine ⟨_, hdec, rfl, rfl, rfl, rfl, ?_⟩
  intro ds hds
  unfold get_all_challenges at hds
  refine decodeAll_mem _ ds _ _ hds ?_ hdec
  refine (List.Perm.mem_iff (List.perm_insertionSort _ _)).mpr ?_
  refine List.mem_filter.mpr ⟨List.mem_append_right _ (List.mem_singleton_self _), by simp⟩

def addC9 : DB × Nat :=
  ((add_challenge dbSkill 0 "Trees" "Learn trees" 1 "beginner" 4 ["a", "b"]
    (some []) none).toOption).getD (dbSkill, 0)

theorem claim_C9_witness :
    ∃ row, addC9.1.challenges = dbSkill.challenges ++ [row] ∧ row.id = addC9.2 ∧
      ∃ d, decodeChallenge row = some d ∧ d.id = addC9.2 ∧
        d.skills_taught = ["a", "b"] ∧ d.prerequisites = [] ∧ d.unlocks = [] ∧
        ∀ ds, get_all_challenges addC9.1 none none = some ds → d ∈ ds :=
  claim_C9 dbSkill 0 "Trees" "Learn trees" 1 "beginner" 4 ["a", "b"] []
    addC9.1 addC9.2 rfl

/-! ### Claim C8 — the recommendation algorithm -/

/-- C8: the modelled `get_recommended_challenge` returns nothing exactly
when no eligible challenge exists (no error in that case), and any returned
recommendation is a `not_started` challenge of the requested skill all of
whose prerequisites are titles of completed challenges of the same skill,
carries a nonempty justification string and the decoded `unlocks` titles,
and is selected deterministically as the first eligible challenge in
declared order. -/
theorem claim_C8 (db : DB) (skill_id : Nat) :
    (get_recommended_challenge db skill_id = none ↔
      db.challenges.filter (eligibleChallenge db skill_id) = []) ∧
    ∀ r, get_recommended_challenge db skill_id = some r →
      r.challenge ∈ db.challenges ∧
      r.challenge.skill_id = skill_id ∧
      r.challenge.status = "not_started" ∧
      (∀ p ∈ (decodeListField r.challenge.prerequisites).getD [],
        p ∈ completedTitles db skill_id) ∧
      r.unlocks = (decodeListField r.challenge.unlocks).getD [] ∧
      r.reason ≠ "" ∧
      (db.challenges.filter (eligibleChallenge db skill_id)).head? = some r.challenge := by
  unfold get_recommended_challenge
  rcases hf : db.challenges.filter (eligibleChallenge db skill_id) with _ | ⟨c, rest⟩
  · exact ⟨by simp, by simp⟩
  · constructor
    · simp
    · intro r hr
      simp only [Option.some.injEq] at hr
      have hcmem : c ∈ db.challenges.filter (eligibleChallenge db skill_id) := by
        rw [hf]
        exact List.mem_cons_self _ _
      have hc := List.mem_filter.mp hcmem
      have he : c.skill_id = skill_id ∧ c.status = "not_started" ∧
          ∀ p ∈ (decodeListField c.prerequisites).getD [],
            p ∈ completedTitles db skill_id := by
        have := hc.2
        simp [eligibleChallenge] at this
        exact ⟨this.1, this.2.1, fun p hp => by
          have := this.2.2 p hp
          simpa using this⟩
      subst hr
      have hreason :
          ("All prerequisites are completed, so this is the next unlocked step." : String)
            ≠ "" := by decide
      exact ⟨hc.1, he.1, he.2.1, he.2.2, rfl, hreason, rfl⟩

def challengeNext : ChallengeRow :=
  { id := 2, title := "Advanced trees", description := "d2", skill_id := 1,
    difficulty := "intermediate", estimated_hours := 8,
    skills_taught := "[\"loops\"]", prerequisites := "[\"Basics\"]",
    unlocks := "[\"Expert\"]", status := "not_started",
    progress_percent := 0, time_spent := 0, github_link := none, notes := none,
    started_at := none, completed_at := none, created_at := 5 }

def dbRec : DB :=
  { emptyDB with skills := [skillRow1], challenges := [challengeDone, challengeNext] }

def recC8 : Recommendation :=
  (get_recommended_challenge dbRec 1).getD ⟨challengeDone, "", "", []⟩

theorem claim_C8_witness :
    recC8.challenge ∈ dbRec.challenges ∧
    recC8.challenge.skill_id = 1 ∧
    recC8.challenge.status = "not_started" ∧
    (∀ p ∈ (decodeListField recC8.challenge.prerequisites).getD [],
      p ∈ completedTitles dbRec 1) ∧
    recC8.unlocks = (decodeListField recC8.challenge.unlocks).getD [] ∧
    recC8.reason ≠ "" ∧
    (dbRec.challenges.filter (eligibleChallenge dbRec 1)).head? = some recC8.challenge :=
  (claim_C8 dbRec 1).2 recC8 (by decide)

end PersonalOS

